import Mathlib

/-!
Verification of the directory-synchronizer repository (DirectorySynchronizer in
src/components/synchronizer.py and src/main.py, MyClass in src/functions.py).

The filesystem is shallowly embedded as an association list from full paths to
entries.  A full path is a pair of the root it lives under (`Side.src` for the
source root `dir1`, `Side.rep` for the replica root `dir2`) and a relative path,
itself a list of name components (which is the canonical, separator-normalized
form the spec's Relative Path refers to; the separator handling of the two
walker variants is modelled separately at the string level further below).

Environmental failures (permission errors, I/O errors) are injected through an
`Oracle` of Boolean failure flags, one per operation kind and target path;
structural failures (`mkdir` over an existing file, `copy2` onto a directory,
`unlink` of a missing path) are computed from the filesystem state itself.
The SHA-256 digest is modelled as an abstract function `h` of the file's byte
content: every theorem below holds for an arbitrary such `h`, which is exactly
the interface the code relies on (equal content gives equal digest).
-/

namespace Sync

/-- A relative path: list of name components. -/
abbrev RelPath := List String

/-- Which root a full path lives under: `dir1` (source) or `dir2` (replica). -/
inductive Side
  | src
  | rep
deriving DecidableEq

/-- A filesystem entry: a regular file with a read-only flag and its byte
content, or a directory.  The read-only flag models the write-protection
attribute that `delete_file` clears with `chmod(stat.S_IWRITE)`. -/
inductive Entry
  | file (ro : Bool) (content : List Nat)
  | dir
deriving DecidableEq

/-- A full path: root tag plus relative path. -/
abbrev AbsPath := Side × RelPath

/-- The two trees as one finite map, association-list represented. -/
abbrev FS := List (AbsPath × Entry)

/-- First-match lookup in the association list. -/
def lookupFS : FS → AbsPath → Option Entry
  | [], _ => none
  | (k, e) :: t, q => if q = k then some e else lookupFS t q

/-- Remove every binding of `q` (models `unlink` / map removal). -/
def eraseFS : FS → AbsPath → FS
  | [], _ => []
  | (k, e) :: t, q => if k = q then eraseFS t q else (k, e) :: eraseFS t q

/-- Bind `q` to `e` (models creating or overwriting one entry). -/
def writeFS (fs : FS) (q : AbsPath) (e : Entry) : FS :=
  (q, e) :: eraseFS fs q

/-- Remove a whole subtree on one side: every binding whose relative path has
`p` as a prefix (models `shutil.rmtree`). -/
def rmtreeFS : FS → Side → RelPath → FS
  | [], _, _ => []
  | (k, e) :: t, s, p =>
    if k.1 = s ∧ p <+: k.2 then rmtreeFS t s p
    else (k, e) :: rmtreeFS t s p

/-- `walk_directory`: the set of relative paths reachable under one root
(synchronizer.py lines 47-54 collects `path.relative_to(directory)` for every
entry of `directory.rglob("*")`; here, the keys of the map on that side). -/
def walk : FS → Side → List RelPath
  | [], _ => []
  | (k, _) :: t, s => if k.1 = s then k.2 :: walk t s else walk t s

/-- The `comparasion_object` dictionary returned by `compare`. -/
structure Classification where
  only_dir1 : List RelPath
  only_dir2 : List RelPath
  common : List RelPath

/-- `compare` (synchronizer.py lines 56-79): `common` is the intersection of
the two snapshots, and `difference_update(common)` leaves in each snapshot the
elements not in the other (removing `s1 ∩ s2` from `s1` is removing `s2`). -/
def compare (s1 s2 : List RelPath) : Classification where
  only_dir1 := s1.filter fun p => !decide (p ∈ s2)
  only_dir2 := s2.filter fun p => !decide (p ∈ s1)
  common := s1.filter fun p => decide (p ∈ s2)

/-- One log record.  Info records mirror the `logger.info` calls, error records
the `logger.error` calls, `sleep` the `time.sleep` at the end of each cycle. -/
inductive Ev
  | deletingFile (p : RelPath)
  | deletingDir (p : RelPath)
  | copied (p : RelPath)
  | createdDir (p : RelPath)
  | updated (p : RelPath)
  | errPurge (p : RelPath)
  | errDeleteFile (p : RelPath)
  | errCopy (p : RelPath)
  | errMkdir (p : RelPath)
  | errHash (s : Side) (p : RelPath)
  | errUpdate (p : RelPath)
  | sleep (n : Nat)
deriving DecidableEq

/-- The relative path an error record is about; `none` for info records. -/
def errPath : Ev → Option RelPath
  | .errPurge p => some p
  | .errDeleteFile p => some p
  | .errCopy p => some p
  | .errMkdir p => some p
  | .errHash _ p => some p
  | .errUpdate p => some p
  | _ => none

/-- An info record of a performed purge/create/update action. -/
def isAction : Ev → Bool
  | .deletingFile _ => true
  | .deletingDir _ => true
  | .copied _ => true
  | .createdDir _ => true
  | .updated _ => true
  | _ => false

/-- Environmental failure flags: whether a given OS call on a given path
raises.  Structural failures are computed from the filesystem instead. -/
structure Oracle where
  unlinkOsErr : RelPath → Bool
  retryFail : RelPath → Bool
  rmtreeFail : RelPath → Bool
  mkdirFail : RelPath → Bool
  copyFail : RelPath → Bool
  hashFail : Side → RelPath → Bool

/-- No environmental failure at all. -/
def allOk (O : Oracle) : Prop :=
  ∀ s p, O.unlinkOsErr p = false ∧ O.retryFail p = false ∧
    O.rmtreeFail p = false ∧ O.mkdirFail p = false ∧
    O.copyFail p = false ∧ O.hashFail s p = false

/-- The oracle on which every OS call succeeds. -/
def okOracle : Oracle where
  unlinkOsErr _ := false
  retryFail _ := false
  rmtreeFail _ := false
  mkdirFail _ := false
  copyFail _ := false
  hashFail _ _ := false

theorem okOracle_allOk : allOk okOracle := by
  intro s p
  exact ⟨rfl, rfl, rfl, rfl, rfl, rfl⟩

/-- `delete_file` (synchronizer.py lines 97-107).  The first `unlink` raises
`PermissionError` when the file is write-protected; the handler clears the
attribute (`chmod(stat.S_IWRITE)`) and retries exactly once.  An exception
raised by that retry is not caught here (an exception inside an `except`
block escapes the `try`), so the Bool result reports whether the call raised
into the caller.  A non-permission `OSError` on the first attempt is logged
here and swallowed. -/
def delete_file (O : Oracle) (fs : FS) (p : RelPath) : FS × List Ev × Bool :=
  match lookupFS fs (.rep, p) with
  | some (.file true c) =>
    if O.retryFail p then (writeFS fs (.rep, p) (.file false c), [], true)
    else (eraseFS (writeFS fs (.rep, p) (.file false c)) (.rep, p), [], false)
  | some (.file false _) =>
    if O.unlinkOsErr p then (fs, [.errDeleteFile p], false)
    else (eraseFS fs (.rep, p), [], false)
  | _ => (fs, [.errDeleteFile p], false)

/-- `delete_directory` (synchronizer.py lines 109-116): `shutil.rmtree` with
`ignore_errors=True` never raises; a failure silently leaves the subtree
(modelled as leaving it whole), to be retried on the next cycle. -/
def delete_directory (O : Oracle) (fs : FS) (p : RelPath) : FS :=
  if O.rmtreeFail p then fs else rmtreeFS fs .rep p

/-- One iteration of the `purge` loop (synchronizer.py lines 81-95): type-check
the replica entry, log the action, delegate; a raised exception is caught at
this entry's granularity and logged as "Error purging". -/
def purgeEntry (O : Oracle) (fs : FS) (p : RelPath) : FS × List Ev :=
  match lookupFS fs (.rep, p) with
  | some (.file _ _) =>
    ((delete_file O fs p).1,
      .deletingFile p :: (delete_file O fs p).2.1 ++
        (if (delete_file O fs p).2.2 then [.errPurge p] else []))
  | some .dir => (delete_directory O fs p, [.deletingDir p])
  | none => (fs, [])

/-- The `purge` loop over `only_dir2`. -/
def purgeGo (O : Oracle) : FS → List RelPath → FS × List Ev
  | fs, [] => (fs, [])
  | fs, p :: ps =>
    ((purgeGo O (purgeEntry O fs p).1 ps).1,
      (purgeEntry O fs p).2 ++ (purgeGo O (purgeEntry O fs p).1 ps).2)

/-- `purge` (synchronizer.py lines 81-95). -/
def purge (O : Oracle) (fs : FS) (c : Classification) : FS × List Ev :=
  purgeGo O fs c.only_dir2

/-- `mkdir(parents=True, exist_ok=True)`: walk the component chain from the
root, creating each missing directory; an existing directory is accepted
(`exist_ok`), an existing regular file raises `FileExistsError`, and an
environmental failure on a component may also raise.  Partial creations made
before the failing component persist. -/
def mkdirChain (O : Oracle) : FS → RelPath → List String → FS × Bool
  | fs, _, [] => (fs, true)
  | fs, pref, c :: rest =>
    match lookupFS fs (.rep, pref ++ [c]) with
    | some .dir => mkdirChain O fs (pref ++ [c]) rest
    | some (.file _ _) => (fs, false)
    | none =>
      if O.mkdirFail (pref ++ [c]) then (fs, false)
      else mkdirChain O (writeFS fs (.rep, pref ++ [c]) .dir) (pref ++ [c]) rest

/-- `mkdir(parents=True, exist_ok=True)` on the replica path `q`. -/
def mkdirParents (O : Oracle) (fs : FS) (q : RelPath) : FS × Bool :=
  mkdirChain O fs [] q

/-- `copy_file_from_source` (synchronizer.py lines 118-132): create the
destination's parent chain, then `shutil.copy2` the source file over
`dir2 / filename`; `copy2` onto an existing directory raises, a vanished
source raises, and the whole `try` block logs one "Error copying" record. -/
def copy_file_from_source (O : Oracle) (fs : FS) (f : RelPath) : FS × List Ev :=
  if (mkdirParents O fs f.dropLast).2 then
    match lookupFS (mkdirParents O fs f.dropLast).1 (.src, f) with
    | some (.file ro c) =>
      match lookupFS (mkdirParents O fs f.dropLast).1 (.rep, f) with
      | some .dir => ((mkdirParents O fs f.dropLast).1, [.errCopy f])
      | _ =>
        if O.copyFail f then ((mkdirParents O fs f.dropLast).1, [.errCopy f])
        else (writeFS (mkdirParents O fs f.dropLast).1 (.rep, f) (.file ro c),
          [.copied f])
    | _ => ((mkdirParents O fs f.dropLast).1, [.errCopy f])
  else ((mkdirParents O fs f.dropLast).1, [.errCopy f])

/-- `create_directory_in_target` (synchronizer.py lines 134-143). -/
def create_directory_in_target (O : Oracle) (fs : FS) (f : RelPath) : FS × List Ev :=
  if (mkdirParents O fs f).2 then ((mkdirParents O fs f).1, [.createdDir f])
  else ((mkdirParents O fs f).1, [.errMkdir f])

/-- One iteration of the `checks_only_on_source` loop (synchronizer.py lines
145-157): dispatch on the type of the source entry; a path that is neither a
file nor a directory any more is skipped silently. -/
def createEntry (O : Oracle) (fs : FS) (f : RelPath) : FS × List Ev :=
  match lookupFS fs (.src, f) with
  | some (.file _ _) => copy_file_from_source O fs f
  | some .dir => create_directory_in_target O fs f
  | none => (fs, [])

/-- The `checks_only_on_source` loop over `only_dir1`. -/
def createGo (O : Oracle) : FS → List RelPath → FS × List Ev
  | fs, [] => (fs, [])
  | fs, f :: fsx =>
    ((createGo O (createEntry O fs f).1 fsx).1,
      (createEntry O fs f).2 ++ (createGo O (createEntry O fs f).1 fsx).2)

/-- `checks_only_on_source` (synchronizer.py lines 145-157). -/
def checks_only_on_source (O : Oracle) (fs : FS) (c : Classification) : FS × List Ev :=
  createGo O fs c.only_dir1

/-- `calculate_sha256` (synchronizer.py lines 159-171): stream the file through
the hash, returning the sentinel (`""`, modelled as `none`) when the read
raises; a hex digest is never the empty string, so the sentinel is
unambiguous and `none` is a faithful model.  The digest itself is an abstract
function `h` of the content. -/
def calculate_sha256 (O : Oracle) (h : List Nat → Nat) (fs : FS) (s : Side)
    (p : RelPath) : Option Nat :=
  if O.hashFail s p then none
  else match lookupFS fs (s, p) with
    | some (.file _ c) => some (h c)
    | _ => none

/-- One iteration of the `update_common_files` loop (synchronizer.py lines
173-190): only pairs that are regular files on both sides are considered;
each failed digest logs its own error record as it is computed (first the
source digest, then the replica digest); the copy happens exactly when both
digests were computed and differ (`hash1 != hash2 and hash1 != "" and
hash2 != ""`); `copy2` preserves content and permission bits. -/
def updateEntry (O : Oracle) (h : List Nat → Nat) (fs : FS) (p : RelPath) :
    FS × List Ev :=
  match lookupFS fs (.src, p), lookupFS fs (.rep, p) with
  | some (.file ro1 c1), some (.file _ _) =>
    match calculate_sha256 O h fs .src p, calculate_sha256 O h fs .rep p with
    | some a, some b =>
      if a ≠ b then
        if O.copyFail p then (fs, [.errUpdate p])
        else (writeFS fs (.rep, p) (.file ro1 c1), [.updated p])
      else (fs, [])
    | some _, none => (fs, [.errHash .rep p])
    | none, some _ => (fs, [.errHash .src p])
    | none, none => (fs, [.errHash .src p, .errHash .rep p])
  | _, _ => (fs, [])

/-- The `update_common_files` loop over `common`. -/
def updateGo (O : Oracle) (h : List Nat → Nat) : FS → List RelPath → FS × List Ev
  | fs, [] => (fs, [])
  | fs, p :: ps =>
    ((updateGo O h (updateEntry O h fs p).1 ps).1,
      (updateEntry O h fs p).2 ++ (updateGo O h (updateEntry O h fs p).1 ps).2)

/-- `update_common_files` (synchronizer.py lines 173-190). -/
def update_common_files (O : Oracle) (h : List Nat → Nat) (fs : FS)
    (c : Classification) : FS × List Ev :=
  updateGo O h fs c.common

/-- The body of the `sync_directories` loop (synchronizer.py lines 192-201):
walk both roots, classify, purge, create, update, in that order. -/
def runCycle (O : Oracle) (h : List Nat → Nat) (fs : FS) :
    FS × Classification × List Ev :=
  let cls := compare (walk fs .src) (walk fs .rep)
  let r1 := purge O fs cls
  let r2 := checks_only_on_source O r1.1 cls
  let r3 := update_common_files O h r2.1 cls
  (r3.1, cls, r1.2 ++ r2.2 ++ r3.2)

/-- `sync_directories` (synchronizer.py lines 192-201): the infinite
`while True` loop, modelled for `n` iterations; each iteration runs one cycle
then sleeps for the configured interval. -/
def sync_directories (O : Oracle) (h : List Nat → Nat) (interval : Nat) :
    Nat → FS → FS × List Ev
  | 0, fs => (fs, [])
  | n + 1, fs =>
    let r := runCycle O h fs
    let rest := sync_directories O h interval n r.1
    (rest.1, r.2.2 ++ Ev.sleep interval :: rest.2)

/-- Well-formed pair of trees, as any real walk of two on-disk trees produces:
no duplicate keys, no binding of the empty relative path (`rglob` yields
proper descendants only), and every proper, nonempty prefix of a bound path
is bound to a directory on the same side (ancestors exist and are
directories; in particular files have no descendants).  Quantifiers are
bounded so that the predicate is decidable on concrete trees. -/
def WF (fs : FS) : Prop :=
  (fs.map Prod.fst).Nodup ∧
    ∀ kv ∈ fs, kv.1.2 ≠ [] ∧
      ∀ p ∈ kv.1.2.inits, p = [] ∨ p = kv.1.2 ∨
        lookupFS fs (kv.1.1, p) = some Entry.dir

instance (fs : FS) : Decidable (WF fs) := by
  unfold WF
  infer_instance

/-- The replica holds `p` with the type the source gives it and, for files,
with content of the same digest. -/
def matchesAt (h : List Nat → Nat) (fs : FS) (p : RelPath) : Prop :=
  match lookupFS fs (.src, p), lookupFS fs (.rep, p) with
  | some Entry.dir, r => r = some Entry.dir
  | some (Entry.file _ c), some (Entry.file _ c') => h c' = h c
  | some (Entry.file _ _), _ => False
  | none, _ => True

instance (h : List Nat → Nat) (fs : FS) (p : RelPath) :
    Decidable (matchesAt h fs p) :=
  match hs : lookupFS fs (.src, p), hr : lookupFS fs (.rep, p) with
  | some Entry.dir, r =>
    decidable_of_iff (r = some Entry.dir) (by simp only [matchesAt, hs, hr])
  | some (Entry.file ro c), some (Entry.file ro' c') =>
    decidable_of_iff (h c' = h c) (by simp only [matchesAt, hs, hr])
  | some (Entry.file ro c), some Entry.dir =>
    isFalse (by simp [matchesAt, hs, hr])
  | some (Entry.file ro c), none =>
    isFalse (by simp [matchesAt, hs, hr])
  | none, _ => isTrue (by simp [matchesAt, hs])

/-- A common path that is a regular file on one side and a directory on the
other: the update phase considers only file/file pairs, so such an entry is
left untouched with no log record. -/
def typeClash (fs : FS) (p : RelPath) : Prop :=
  match lookupFS fs (.src, p), lookupFS fs (.rep, p) with
  | some (.file _ _), some .dir => True
  | some .dir, some (.file _ _) => True
  | _, _ => False

instance (fs : FS) (p : RelPath) : Decidable (typeClash fs p) :=
  match hs : lookupFS fs (.src, p), hr : lookupFS fs (.rep, p) with
  | some (.file ro c), some .dir => isTrue (by simp [typeClash, hs, hr])
  | some .dir, some (.file ro c) => isTrue (by simp [typeClash, hs, hr])
  | some (.file ro c), some (.file ro' c') =>
    isFalse (by simp [typeClash, hs, hr])
  | some (.file ro c), none => isFalse (by simp [typeClash, hs, hr])
  | some .dir, some .dir => isFalse (by simp [typeClash, hs, hr])
  | some .dir, none => isFalse (by simp [typeClash, hs, hr])
  | none, _ => isFalse (by simp [typeClash, hs])

theorem lookup_eraseFS (fs : FS) (q r : AbsPath) :
    lookupFS (eraseFS fs q) r = if r = q then none else lookupFS fs r := by
  induction fs with
  | nil => simp [eraseFS, lookupFS]
  | cons kv t ih =>
    obtain ⟨k, e⟩ := kv
    simp only [eraseFS, lookupFS]
    by_cases hkq : k = q <;> by_cases hrk : r = k <;> by_cases hrq : r = q <;>
      simp_all [lookupFS]

theorem lookup_writeFS (fs : FS) (q r : AbsPath) (e : Entry) :
    lookupFS (writeFS fs q e) r = if r = q then some e else lookupFS fs r := by
  by_cases hrq : r = q <;> simp [writeFS, lookupFS, hrq, lookup_eraseFS]

theorem lookup_rmtreeFS (fs : FS) (s : Side) (p : RelPath) (r : AbsPath) :
    lookupFS (rmtreeFS fs s p) r =
      if r.1 = s ∧ p <+: r.2 then none else lookupFS fs r := by
  induction fs with
  | nil => simp [rmtreeFS, lookupFS]
  | cons kv t ih =>
    obtain ⟨k, e⟩ := kv
    by_cases hk : k.1 = s ∧ p <+: k.2
    · by_cases hrk : r = k
      · subst hrk
        simp [rmtreeFS, lookupFS, hk, ih]
      · simp [rmtreeFS, lookupFS, hk, hrk, ih]
    · by_cases hrk : r = k
      · subst hrk
        simp [rmtreeFS, lookupFS, hk]
      · simp [rmtreeFS, lookupFS, hk, hrk, ih]

theorem walk_mem (fs : FS) (s : Side) (p : RelPath) :
    p ∈ walk fs s ↔ (lookupFS fs (s, p)).isSome := by
  induction fs with
  | nil => simp [walk, lookupFS]
  | cons kv t ih =>
    obtain ⟨⟨ks, kp⟩, e⟩ := kv
    by_cases hks : ks = s
    · subst hks
      by_cases hpk : p = kp
      · subst hpk
        simp [walk, lookupFS]
      · have hne : (ks, p) ≠ (ks, kp) := by simp [hpk]
        simp [walk, lookupFS, hpk, hne, ih]
    · have hne : (s, p) ≠ (ks, kp) := by
        intro hh
        exact hks (by cases hh; rfl)
      simp [walk, lookupFS, hks, hne, ih]

theorem lookup_mem {fs : FS} {q : AbsPath} {e : Entry}
    (hl : lookupFS fs q = some e) : (q, e) ∈ fs := by
  induction fs with
  | nil => simp [lookupFS] at hl
  | cons kv t ih =>
    obtain ⟨k, e'⟩ := kv
    by_cases hq : q = k
    · subst hq
      simp [lookupFS] at hl
      simp [hl]
    · simp [lookupFS, hq] at hl
      simp [ih hl]

/-- Under well-formedness: a nonempty, proper prefix of a bound path is a
directory on the same side. -/
theorem WF.anc {fs : FS} (hwf : WF fs) {s : Side} {q : RelPath} {e : Entry}
    (hq : lookupFS fs (s, q) = some e) {p : RelPath} (hpre : p <+: q)
    (hne : p ≠ []) (hneq : p ≠ q) : lookupFS fs (s, p) = some Entry.dir := by
  have hmem := lookup_mem hq
  rcases (hwf.2 _ hmem).2 p ((List.mem_inits p q).2 hpre) with hc | hc | hc
  · exact absurd hc hne
  · exact absurd hc hneq
  · exact hc

/-- Under well-formedness: no bound path is empty. -/
theorem WF.key_ne_nil {fs : FS} (hwf : WF fs) {s : Side} {q : RelPath}
    {e : Entry} (hq : lookupFS fs (s, q) = some e) : q ≠ [] :=
  (hwf.2 _ (lookup_mem hq)).1

theorem purgeGo_append (O : Oracle) (fs : FS) (xs ys : List RelPath) :
    purgeGo O fs (xs ++ ys) =
      ((purgeGo O (purgeGo O fs xs).1 ys).1,
        (purgeGo O fs xs).2 ++ (purgeGo O (purgeGo O fs xs).1 ys).2) := by
  induction xs generalizing fs with
  | nil => simp [purgeGo]
  | cons p ps ih => simp [purgeGo, ih]

theorem createGo_append (O : Oracle) (fs : FS) (xs ys : List RelPath) :
    createGo O fs (xs ++ ys) =
      ((createGo O (createGo O fs xs).1 ys).1,
        (createGo O fs xs).2 ++ (createGo O (createGo O fs xs).1 ys).2) := by
  induction xs generalizing fs with
  | nil => simp [createGo]
  | cons p ps ih => simp [createGo, ih]

theorem updateGo_append (O : Oracle) (h : List Nat → Nat) (fs : FS)
    (xs ys : List RelPath) :
    updateGo O h fs (xs ++ ys) =
      ((updateGo O h (updateGo O h fs xs).1 ys).1,
        (updateGo O h fs xs).2 ++ (updateGo O h (updateGo O h fs xs).1 ys).2) := by
  induction xs generalizing fs with
  | nil => simp [updateGo]
  | cons p ps ih => simp [updateGo, ih]

theorem purgeEntry_src (O : Oracle) (fs : FS) (p r : RelPath) :
    lookupFS (purgeEntry O fs p).1 (.src, r) = lookupFS fs (.src, r) := by
  cases hl : lookupFS fs (.rep, p) with
  | none => simp [purgeEntry, hl]
  | some e =>
    cases e with
    | dir =>
      simp only [purgeEntry, hl, delete_directory]
      split
      · rfl
      · simp [lookup_rmtreeFS]
    | file ro c =>
      cases ro with
      | true =>
        simp only [purgeEntry, hl, delete_file]
        split <;> simp [lookup_eraseFS, lookup_writeFS]
      | false =>
        simp only [purgeEntry, hl, delete_file]
        split
        · rfl
        · simp [lookup_eraseFS]

theorem purgeGo_src (O : Oracle) (fs : FS) (l : List RelPath) (r : RelPath) :
    lookupFS (purgeGo O fs l).1 (.src, r) = lookupFS fs (.src, r) := by
  induction l generalizing fs with
  | nil => rfl
  | cons p ps ih => simp [purgeGo, ih, purgeEntry_src]

theorem mkdirChain_src (O : Oracle) (fs : FS) (pref : RelPath)
    (l : List String) (r : RelPath) :
    lookupFS (mkdirChain O fs pref l).1 (.src, r) = lookupFS fs (.src, r) := by
  induction l generalizing fs pref with
  | nil => rfl
  | cons c cs ih =>
    cases hl : lookupFS fs (.rep, pref ++ [c]) with
    | none =>
      simp only [mkdirChain, hl]
      split
      · rfl
      · rw [ih, lookup_writeFS]
        simp
    | some e =>
      cases e with
      | dir =>
        simp only [mkdirChain, hl]
        exact ih fs (pref ++ [c])
      | file ro c2 => simp only [mkdirChain, hl]

theorem copy_file_src (O : Oracle) (fs : FS) (f r : RelPath) :
    lookupFS (copy_file_from_source O fs f).1 (.src, r) =
      lookupFS fs (.src, r) := by
  unfold copy_file_from_source mkdirParents
  split
  · split
    · split
      · simp [mkdirChain_src]
      · split <;> simp [mkdirChain_src, lookup_writeFS]
    · simp [mkdirChain_src]
  · simp [mkdirChain_src]

theorem createEntry_src (O : Oracle) (fs : FS) (f r : RelPath) :
    lookupFS (createEntry O fs f).1 (.src, r) = lookupFS fs (.src, r) := by
  cases hl : lookupFS fs (.src, f) with
  | none => simp [createEntry, hl]
  | some e =>
    cases e with
    | dir =>
      simp only [createEntry, hl, create_directory_in_target, mkdirParents]
      split <;> simp [mkdirChain_src]
    | file ro c => simp [createEntry, hl, copy_file_src]

theorem createGo_src (O : Oracle) (fs : FS) (l : List RelPath) (r : RelPath) :
    lookupFS (createGo O fs l).1 (.src, r) = lookupFS fs (.src, r) := by
  induction l generalizing fs with
  | nil => rfl
  | cons p ps ih => simp [createGo, ih, createEntry_src]

theorem updateEntry_src (O : Oracle) (h : List Nat → Nat) (fs : FS)
    (p r : RelPath) :
    lookupFS (updateEntry O h fs p).1 (.src, r) = lookupFS fs (.src, r) := by
  unfold updateEntry
  split
  · split
    · split
      · split
        · rfl
        · simp [lookup_writeFS]
      · rfl
    · rfl
    · rfl
    · rfl
  · rfl

theorem updateGo_src (O : Oracle) (h : List Nat → Nat) (fs : FS)
    (l : List RelPath) (r : RelPath) :
    lookupFS (updateGo O h fs l).1 (.src, r) = lookupFS fs (.src, r) := by
  induction l generalizing fs with
  | nil => rfl
  | cons p ps ih => simp [updateGo, ih, updateEntry_src]

theorem runCycle_src (O : Oracle) (h : List Nat → Nat) (fs : FS) (r : RelPath) :
    lookupFS (runCycle O h fs).1 (.src, r) = lookupFS fs (.src, r) := by
  simp [runCycle, purge, checks_only_on_source, update_common_files,
    updateGo_src, createGo_src, purgeGo_src]

theorem purgeEntry_rep_keep (O : Oracle) (fs : FS) (p r : RelPath)
    (hnp : ¬ p <+: r) :
    lookupFS (purgeEntry O fs p).1 (.rep, r) = lookupFS fs (.rep, r) := by
  have hne : (Side.rep, r) ≠ (Side.rep, p) := by
    intro hh
    have hrp : r = p := congrArg Prod.snd hh
    subst hrp
    exact hnp (List.prefix_refl r)
  cases hl : lookupFS fs (.rep, p) with
  | none => simp [purgeEntry, hl]
  | some e =>
    cases e with
    | dir =>
      simp only [purgeEntry, hl, delete_directory]
      split
      · rfl
      · simp [lookup_rmtreeFS, hnp]
    | file ro c =>
      cases ro with
      | true =>
        simp only [purgeEntry, hl, delete_file]
        split <;> simp [lookup_eraseFS, lookup_writeFS, hne]
      | false =>
        simp only [purgeEntry, hl, delete_file]
        split
        · rfl
        · simp [lookup_eraseFS, hne]

theorem purgeGo_rep_keep (O : Oracle) (fs : FS) (l : List RelPath)
    (r : RelPath) (hl : ∀ p ∈ l, ¬ p <+: r) :
    lookupFS (purgeGo O fs l).1 (.rep, r) = lookupFS fs (.rep, r) := by
  induction l generalizing fs with
  | nil => rfl
  | cons p ps ih =>
    have h1 := purgeEntry_rep_keep O fs p r (hl p (by simp))
    have h2 := ih (purgeEntry O fs p).1 fun q hq => hl q (by simp [hq])
    simp only [purgeGo]
    rw [h2, h1]

theorem purgeEntry_rep_none (O : Oracle) (fs : FS) (p r : RelPath)
    (h0 : lookupFS fs (.rep, r) = none) :
    lookupFS (purgeEntry O fs p).1 (.rep, r) = none := by
  cases hl : lookupFS fs (.rep, p) with
  | none => simp [purgeEntry, hl, h0]
  | some e =>
    have hrp : r ≠ p := by
      intro hh
      rw [hh] at h0
      rw [h0] at hl
      cases hl
    cases e with
    | dir =>
      simp only [purgeEntry, hl, delete_directory]
      split
      · exact h0
      · rw [lookup_rmtreeFS]
        split
        · rfl
        · exact h0
    | file ro c =>
      cases ro with
      | true =>
        simp only [purgeEntry, hl, delete_file]
        split <;> simp [lookup_eraseFS, lookup_writeFS, hrp, h0]
      | false =>
        simp only [purgeEntry, hl, delete_file]
        split
        · exact h0
        · simp [lookup_eraseFS, hrp, h0]

theorem purgeGo_rep_none (O : Oracle) (fs : FS) (l : List RelPath)
    (r : RelPath) (h0 : lookupFS fs (.rep, r) = none) :
    lookupFS (purgeGo O fs l).1 (.rep, r) = none := by
  induction l generalizing fs with
  | nil => exact h0
  | cons p ps ih =>
    simp only [purgeGo]
    exact ih _ (purgeEntry_rep_none O fs p r h0)

/-- With no environmental failure, one purge iteration removes its entry. -/
theorem purgeEntry_rep_del (O : Oracle) (fs : FS) (r : RelPath)
    (hok : allOk O) :
    lookupFS (purgeEntry O fs r).1 (.rep, r) = none := by
  cases hl : lookupFS fs (.rep, r) with
  | none => simp [purgeEntry, hl]
  | some e =>
    cases e with
    | dir =>
      simp [purgeEntry, hl, delete_directory, (hok .rep r).2.2.1,
        lookup_rmtreeFS, List.prefix_refl]
    | file ro c =>
      cases ro with
      | true =>
        simp [purgeEntry, hl, delete_file, (hok .rep r).2.1, lookup_eraseFS]
      | false =>
        simp [purgeEntry, hl, delete_file, (hok .rep r).1, lookup_eraseFS]

theorem purgeGo_rep_del (O : Oracle) (fs : FS) (l : List RelPath)
    (r : RelPath) (hok : allOk O) (hr : r ∈ l) :
    lookupFS (purgeGo O fs l).1 (.rep, r) = none := by
  induction l generalizing fs with
  | nil => cases hr
  | cons p ps ih =>
    simp only [purgeGo]
    rcases List.mem_cons.1 hr with hpr | hmem
    · subst hpr
      exact purgeGo_rep_none O _ ps r (purgeEntry_rep_del O fs r hok)
    · exact ih _ hmem

/-- `mkdir(parents=True, exist_ok=True)` never touches an existing entry. -/
theorem mkdirChain_rep_some (O : Oracle) (fs : FS) (pref : RelPath)
    (l : List String) (r : RelPath) (e : Entry)
    (h0 : lookupFS fs (.rep, r) = some e) :
    lookupFS (mkdirChain O fs pref l).1 (.rep, r) = some e := by
  induction l generalizing fs pref with
  | nil => exact h0
  | cons c cs ih =>
    cases hl : lookupFS fs (.rep, pref ++ [c]) with
    | none =>
      have hne : (Side.rep, r) ≠ (Side.rep, pref ++ [c]) := by
        intro hh
        have hrq : r = pref ++ [c] := congrArg Prod.snd hh
        rw [hrq] at h0
        rw [h0] at hl
        cases hl
      simp only [mkdirChain, hl]
      split
      · exact h0
      · exact ih _ _ (by rw [lookup_writeFS]; simp [hne, h0])
    | some e2 =>
      cases e2 with
      | dir =>
        simp only [mkdirChain, hl]
        exact ih fs (pref ++ [c]) h0
      | file ro c2 =>
        simp only [mkdirChain, hl]
        exact h0

theorem createEntry_rep_some (O : Oracle) (fs : FS) (f r : RelPath)
    (e : Entry) (hrf : r ≠ f) (h0 : lookupFS fs (.rep, r) = some e) :
    lookupFS (createEntry O fs f).1 (.rep, r) = some e := by
  have hne : (Side.rep, r) ≠ (Side.rep, f) := by
    intro hh
    exact hrf (congrArg Prod.snd hh)
  cases hl : lookupFS fs (.src, f) with
  | none => simp [createEntry, hl, h0]
  | some e1 =>
    cases e1 with
    | dir =>
      simp only [createEntry, hl, create_directory_in_target, mkdirParents]
      split <;> exact mkdirChain_rep_some O fs [] f r e h0
    | file ro c =>
      simp only [createEntry, hl, copy_file_from_source, mkdirParents]
      have hm := mkdirChain_rep_some O fs [] f.dropLast r e h0
      split
      · split
        · split
          · exact hm
          · split
            · exact hm
            · rw [lookup_writeFS]
              simp [hne, hm]
        · exact hm
      · exact hm

theorem createGo_rep_some (O : Oracle) (fs : FS) (l : List RelPath)
    (r : RelPath) (e : Entry) (hrl : r ∉ l)
    (h0 : lookupFS fs (.rep, r) = some e) :
    lookupFS (createGo O fs l).1 (.rep, r) = some e := by
  induction l generalizing fs with
  | nil => exact h0
  | cons f fsx ih =>
    simp only [createGo]
    have hrf : r ≠ f := fun hh => hrl (by simp [hh])
    exact ih _ (fun hh => hrl (by simp [hh]))
      (createEntry_rep_some O fs f r e hrf h0)

/-- A change made by `mkdir(parents=True)` happens at a path strictly below
`pref` and within the chain. -/
theorem mkdirChain_change (O : Oracle) (fs : FS) (pref : RelPath)
    (l : List String) (r : RelPath)
    (hch : lookupFS (mkdirChain O fs pref l).1 (.rep, r) ≠
      lookupFS fs (.rep, r)) :
    pref ≠ r ∧ pref <+: r ∧ r <+: pref ++ l := by
  induction l generalizing fs pref with
  | nil => exact absurd rfl hch
  | cons c cs ih =>
    cases hl : lookupFS fs (.rep, pref ++ [c]) with
    | none =>
      rw [mkdirChain, hl] at hch
      by_cases hmf : O.mkdirFail (pref ++ [c]) = true
      · rw [if_pos hmf] at hch
        exact absurd rfl hch
      · rw [if_neg hmf] at hch
        by_cases hrq : r = pref ++ [c]
        · subst hrq
          refine ⟨?_, List.prefix_append pref [c], ?_⟩
          · intro hh
            have hlen := congrArg List.length hh
            simp at hlen
          · rw [show pref ++ c :: cs = (pref ++ [c]) ++ cs by simp]
            exact List.prefix_append (pref ++ [c]) cs
        · have hne : (Side.rep, r) ≠ (Side.rep, pref ++ [c]) := by
            intro hh
            exact hrq (congrArg Prod.snd hh)
          have hw : lookupFS (writeFS fs (.rep, pref ++ [c]) Entry.dir)
              (.rep, r) = lookupFS fs (.rep, r) := by
            rw [lookup_writeFS]
            simp [hne]
          have := ih _ _ (by rw [← hw] at hch; exact hch)
          refine ⟨?_, (List.prefix_append pref [c]).trans this.2.1, ?_⟩
          · intro hh
            subst hh
            have := this.2.1.length_le
            simp at this
          · simpa using this.2.2
    | some e2 =>
      cases e2 with
      | dir =>
        rw [mkdirChain, hl] at hch
        have := ih _ _ hch
        refine ⟨?_, (List.prefix_append pref [c]).trans this.2.1, ?_⟩
        · intro hh
          subst hh
          have := this.2.1.length_le
          simp at this
        · simpa using this.2.2
      | file ro c2 =>
        rw [mkdirChain, hl] at hch
        exact absurd rfl hch

theorem create_directory_fst (O : Oracle) (fs : FS) (f : RelPath) :
    (create_directory_in_target O fs f).1 = (mkdirParents O fs f).1 := by
  unfold create_directory_in_target
  split <;> rfl

theorem copy_file_fst (O : Oracle) (fs : FS) (f : RelPath) :
    (copy_file_from_source O fs f).1 = (mkdirParents O fs f.dropLast).1 ∨
    ∃ ro c,
      lookupFS (mkdirParents O fs f.dropLast).1 (.src, f) =
        some (.file ro c) ∧
      (copy_file_from_source O fs f).1 =
        writeFS (mkdirParents O fs f.dropLast).1 (.rep, f) (.file ro c) := by
  unfold copy_file_from_source
  split
  · split
    · rename_i ro c hsrc
      split
      · exact Or.inl rfl
      · split
        · exact Or.inl rfl
        · exact Or.inr ⟨ro, c, hsrc, rfl⟩
    · exact Or.inl rfl
  · exact Or.inl rfl

/-- Any change `checks_only_on_source` makes for entry `f` is at `f` itself
or at a nonempty prefix of `f` (the parent chain `mkdir` creates). -/
theorem createEntry_change (O : Oracle) (fs : FS) (f r : RelPath)
    (hch : lookupFS (createEntry O fs f).1 (.rep, r) ≠
      lookupFS fs (.rep, r)) :
    r = f ∨ (r ≠ [] ∧ r <+: f) := by
  by_cases hrf : r = f
  · exact Or.inl hrf
  · right
    cases hl : lookupFS fs (.src, f) with
    | none =>
      rw [show createEntry O fs f = (fs, []) from by simp [createEntry, hl]]
        at hch
      exact absurd rfl hch
    | some e1 =>
      cases e1 with
      | dir =>
        simp only [createEntry, hl, create_directory_fst, mkdirParents] at hch
        have := mkdirChain_change O fs [] f r hch
        exact ⟨fun hh => this.1 hh.symm, by simpa using this.2.2⟩
      | file ro c =>
        simp only [createEntry, hl] at hch
        rcases copy_file_fst O fs f with hc | ⟨ro2, c2, hsrc, hc⟩
        · rw [hc] at hch
          simp only [mkdirParents] at hch
          have := mkdirChain_change O fs [] f.dropLast r hch
          have hpre : r <+: f.dropLast := by simpa using this.2.2
          exact ⟨fun hh => this.1 hh.symm,
            hpre.trans (List.dropLast_prefix f)⟩
        · rw [hc, lookup_writeFS] at hch
          have hne : (Side.rep, r) ≠ (Side.rep, f) := fun hh =>
            hrf (congrArg Prod.snd hh)
          rw [if_neg hne] at hch
          simp only [mkdirParents] at hch
          have := mkdirChain_change O fs [] f.dropLast r hch
          have hpre : r <+: f.dropLast := by simpa using this.2.2
          exact ⟨fun hh => this.1 hh.symm,
            hpre.trans (List.dropLast_prefix f)⟩

theorem createGo_change (O : Oracle) (fs : FS) (l : List RelPath)
    (r : RelPath)
    (hch : lookupFS (createGo O fs l).1 (.rep, r) ≠ lookupFS fs (.rep, r)) :
    ∃ f ∈ l, r = f ∨ (r ≠ [] ∧ r <+: f) := by
  induction l generalizing fs with
  | nil => exact absurd rfl hch
  | cons f fsx ih =>
    simp only [createGo] at hch
    by_cases h1 : lookupFS (createEntry O fs f).1 (.rep, r) =
        lookupFS fs (.rep, r)
    · have hch2 : lookupFS (createGo O (createEntry O fs f).1 fsx).1
          (.rep, r) ≠ lookupFS (createEntry O fs f).1 (.rep, r) := by
        rw [h1]
        exact hch
      rcases ih _ hch2 with ⟨g, hg, hgood⟩
      exact ⟨g, by simp [hg], hgood⟩
    · exact ⟨f, by simp, createEntry_change O fs f r h1⟩

/-- A successful `mkdir(parents=True)` leaves the target bound to a
directory. -/
theorem mkdirChain_post (O : Oracle) (fs : FS) (pref : RelPath)
    (l : List String) (hok : (mkdirChain O fs pref l).2 = true)
    (hpre : lookupFS fs (.rep, pref) = some Entry.dir ∨ l ≠ []) :
    lookupFS (mkdirChain O fs pref l).1 (.rep, pref ++ l) =
      some Entry.dir := by
  induction l generalizing fs pref with
  | nil =>
    rcases hpre with hp | hp
    · simpa using hp
    · exact absurd rfl hp
  | cons c cs ih =>
    cases hl : lookupFS fs (.rep, pref ++ [c]) with
    | none =>
      by_cases hmf : O.mkdirFail (pref ++ [c]) = true
      · simp only [mkdirChain, hl, if_pos hmf] at hok
        simp at hok
      · simp only [mkdirChain, hl, if_neg hmf] at hok ⊢
        have hw : lookupFS (writeFS fs (.rep, pref ++ [c]) Entry.dir)
            (.rep, pref ++ [c]) = some Entry.dir := by
          rw [lookup_writeFS]
          simp
        have := ih _ _ hok (Or.inl hw)
        simpa using this
    | some e2 =>
      cases e2 with
      | dir =>
        simp only [mkdirChain, hl] at hok ⊢
        have := ih _ _ hok (Or.inl hl)
        simpa using this
      | file ro c2 =>
        simp only [mkdirChain, hl] at hok
        simp at hok

/-- One `checks_only_on_source` iteration: either an error about `f` is
logged, or the replica now carries the source's entry at `f`. -/
theorem createEntry_good (O : Oracle) (fs : FS) (f : RelPath) (hf : f ≠ []) :
    (∃ e ∈ (createEntry O fs f).2, errPath e = some f) ∨
    (match lookupFS fs (.src, f) with
     | some (.file ro c) =>
       lookupFS (createEntry O fs f).1 (.rep, f) = some (.file ro c)
     | some .dir => lookupFS (createEntry O fs f).1 (.rep, f) = some .dir
     | none => True) := by
  cases hl : lookupFS fs (.src, f) with
  | none => exact Or.inr trivial
  | some e1 =>
    cases e1 with
    | dir =>
      by_cases hok : (mkdirChain O fs [] f).2 = true
      · right
        simp only [hl, createEntry, create_directory_in_target, mkdirParents,
          if_pos hok]
        have := mkdirChain_post O fs [] f hok (Or.inr hf)
        simpa using this
      · left
        simp only [createEntry, hl, create_directory_in_target, mkdirParents,
          if_neg hok]
        exact ⟨.errMkdir f, by simp, rfl⟩
    | file ro c =>
      have hceq : createEntry O fs f = copy_file_from_source O fs f := by
        simp [createEntry, hl]
      rw [hceq]
      by_cases hok : (mkdirChain O fs [] f.dropLast).2 = true
      · have hsrc : lookupFS (mkdirChain O fs [] f.dropLast).1 (.src, f) =
            some (.file ro c) := by
          rw [mkdirChain_src]
          exact hl
        cases hrep : lookupFS (mkdirChain O fs [] f.dropLast).1 (.rep, f) with
        | none =>
          by_cases hcf : O.copyFail f = true
          · left
            refine ⟨.errCopy f, ?_, rfl⟩
            simp [copy_file_from_source, mkdirParents, hok, hsrc, hrep, hcf]
          · right
            show lookupFS (copy_file_from_source O fs f).1 (Side.rep, f) =
              some (Entry.file ro c)
            have hval : copy_file_from_source O fs f =
                (writeFS (mkdirChain O fs [] f.dropLast).1 (.rep, f)
                  (.file ro c), [.copied f]) := by
              simp [copy_file_from_source, mkdirParents, hok, hsrc, hrep, hcf]
            rw [hval, lookup_writeFS]
            simp
        | some e2 =>
          cases e2 with
          | dir =>
            left
            refine ⟨.errCopy f, ?_, rfl⟩
            simp [copy_file_from_source, mkdirParents, hok, hsrc, hrep]
          | file ro2 c2 =>
            by_cases hcf : O.copyFail f = true
            · left
              refine ⟨.errCopy f, ?_, rfl⟩
              simp [copy_file_from_source, mkdirParents, hok, hsrc, hrep, hcf]
            · right
              show lookupFS (copy_file_from_source O fs f).1 (Side.rep, f) =
                some (Entry.file ro c)
              have hval : copy_file_from_source O fs f =
                  (writeFS (mkdirChain O fs [] f.dropLast).1 (.rep, f)
                    (.file ro c), [.copied f]) := by
                simp [copy_file_from_source, mkdirParents, hok, hsrc, hrep, hcf]
              rw [hval, lookup_writeFS]
              simp
      · left
        refine ⟨.errCopy f, ?_, rfl⟩
        simp [copy_file_from_source, mkdirParents, hok]

theorem createGo_good (O : Oracle) (fs : FS) (l : List RelPath)
    (f : RelPath) (hf : f ≠ []) (hmem : f ∈ l) (hnd : l.Nodup) :
    (∃ e ∈ (createGo O fs l).2, errPath e = some f) ∨
    (match lookupFS fs (.src, f) with
     | some (.file ro c) =>
       lookupFS (createGo O fs l).1 (.rep, f) = some (.file ro c)
     | some .dir => lookupFS (createGo O fs l).1 (.rep, f) = some .dir
     | none => True) := by
  induction l generalizing fs with
  | nil => cases hmem
  | cons g gs ih =>
    rcases List.mem_cons.1 hmem with hfg | hmem2
    · subst hfg
      have hfnotin : f ∉ gs := (List.nodup_cons.1 hnd).1
      rcases createEntry_good O fs f hf with ⟨e, he, hep⟩ | hgood
      · left
        refine ⟨e, ?_, hep⟩
        simp only [createGo]
        exact List.mem_append.2 (Or.inl he)
      · right
        cases hl : lookupFS fs (.src, f) with
        | none => trivial
        | some e1 =>
          rw [hl] at hgood
          cases e1 with
          | dir =>
            simp only [hl] at hgood ⊢
            simp only [createGo]
            exact createGo_rep_some O _ gs f _ hfnotin hgood
          | file ro c =>
            simp only [hl] at hgood ⊢
            simp only [createGo]
            exact createGo_rep_some O _ gs f _ hfnotin hgood
    · have hnd2 := (List.nodup_cons.1 hnd).2
      rcases ih (createEntry O fs g).1 hmem2 hnd2 with ⟨e, he, hep⟩ | hgood
      · left
        refine ⟨e, ?_, hep⟩
        simp only [createGo]
        exact List.mem_append.2 (Or.inr he)
      · right
        have hsrc := createEntry_src O fs g f
        rw [hsrc] at hgood
        cases hl : lookupFS fs (.src, f) with
        | none => trivial
        | some e1 =>
          rw [hl] at hgood
          cases e1 with
          | dir =>
            simp only [hl] at hgood ⊢
            simpa only [createGo] using hgood
          | file ro c =>
            simp only [hl] at hgood ⊢
            simpa only [createGo] using hgood

theorem updateEntry_rep_keep (O : Oracle) (h : List Nat → Nat) (fs : FS)
    (p r : RelPath) (hrp : r ≠ p) :
    lookupFS (updateEntry O h fs p).1 (.rep, r) = lookupFS fs (.rep, r) := by
  have hne : (Side.rep, r) ≠ (Side.rep, p) := fun hh =>
    hrp (congrArg Prod.snd hh)
  unfold updateEntry
  split
  · split
    · split
      · split
        · rfl
        · rw [lookup_writeFS]
          simp [hne]
      · rfl
    · rfl
    · rfl
    · rfl
  · rfl

theorem updateGo_rep_keep (O : Oracle) (h : List Nat → Nat) (fs : FS)
    (l : List RelPath) (r : RelPath) (hrl : r ∉ l) :
    lookupFS (updateGo O h fs l).1 (.rep, r) = lookupFS fs (.rep, r) := by
  induction l generalizing fs with
  | nil => rfl
  | cons p ps ih =>
    simp only [updateGo]
    rw [ih _ fun hh => hrl (by simp [hh]),
      updateEntry_rep_keep O h fs p r fun hh => hrl (by simp [hh])]

/-- One `update_common_files` iteration: either an error about `p` is logged,
or (for a file/file pair) the replica ends with the source digest — by
keeping content whose digest already matched, or by the performed copy —
and any other pair is left untouched. -/
theorem updateEntry_good (O : Oracle) (h : List Nat → Nat) (fs : FS)
    (p : RelPath) :
    (∃ e ∈ (updateEntry O h fs p).2, errPath e = some p) ∨
    (match lookupFS fs (.src, p), lookupFS fs (.rep, p) with
     | some (.file _ c1), some (.file ro2 c2) =>
       (h c1 = h c2 ∧
         lookupFS (updateEntry O h fs p).1 (.rep, p) =
           some (.file ro2 c2)) ∨
       ∃ ro1, lookupFS fs (.src, p) = some (.file ro1 c1) ∧
         lookupFS (updateEntry O h fs p).1 (.rep, p) = some (.file ro1 c1)
     | _, _ =>
       lookupFS (updateEntry O h fs p).1 (.rep, p) =
         lookupFS fs (.rep, p)) := by
  cases hs : lookupFS fs (.src, p) with
  | none => right
            simp only [hs, updateEntry]
  | some e1 =>
    cases e1 with
    | dir =>
      right
      cases hr : lookupFS fs (.rep, p) with
      | none => simp only [hs, hr, updateEntry]
      | some e2 =>
        cases e2 with
        | dir => simp only [hs, hr, updateEntry]
        | file ro2 c2 => simp only [hs, hr, updateEntry]
    | file ro1 c1 =>
      cases hr : lookupFS fs (.rep, p) with
      | none =>
        right
        simp only [hs, hr, updateEntry]
      | some e2 =>
        cases e2 with
        | dir =>
          right
          simp only [hs, hr, updateEntry]
        | file ro2 c2 =>
          by_cases hf1 : O.hashFail .src p = true
          · left
            refine ⟨.errHash .src p, ?_, rfl⟩
            by_cases hf2 : O.hashFail .rep p = true <;>
              simp [updateEntry, hs, hr, calculate_sha256, hf1, hf2]
          · by_cases hf2 : O.hashFail .rep p = true
            · left
              refine ⟨.errHash .rep p, ?_, rfl⟩
              simp [updateEntry, hs, hr, calculate_sha256, hf1, hf2]
            · have hc1 : calculate_sha256 O h fs .src p = some (h c1) := by
                simp [calculate_sha256, hf1, hs]
              have hc2 : calculate_sha256 O h fs .rep p = some (h c2) := by
                simp [calculate_sha256, hf2, hr]
              by_cases hab : h c1 = h c2
              · have hval : updateEntry O h fs p = (fs, []) := by
                  simp [updateEntry, hs, hr, hc1, hc2, hab]
                have hres : lookupFS (updateEntry O h fs p).1 (.rep, p) =
                    some (.file ro2 c2) := by
                  rw [hval]
                  exact hr
                right
                simp only [hs, hr]
                exact Or.inl ⟨hab, hres⟩
              · by_cases hcf : O.copyFail p = true
                · left
                  refine ⟨.errUpdate p, ?_, rfl⟩
                  simp [updateEntry, hs, hr, hc1, hc2, hab, hcf]
                · have hval : updateEntry O h fs p =
                      (writeFS fs (.rep, p) (.file ro1 c1), [.updated p]) := by
                    simp [updateEntry, hs, hr, hc1, hc2, hab, hcf]
                  have hres : lookupFS (updateEntry O h fs p).1 (.rep, p) =
                      some (.file ro1 c1) := by
                    rw [hval, lookup_writeFS]
                    simp
                  right
                  simp only [hs, hr]
                  exact Or.inr ⟨ro1, rfl, hres⟩

theorem updateGo_good (O : Oracle) (h : List Nat → Nat) (fs : FS)
    (l : List RelPath) (f : RelPath) (hmem : f ∈ l) (hnd : l.Nodup) :
    (∃ e ∈ (updateGo O h fs l).2, errPath e = some f) ∨
    (match lookupFS fs (.src, f), lookupFS fs (.rep, f) with
     | some (.file _ c1), some (.file ro2 c2) =>
       (h c1 = h c2 ∧
         lookupFS (updateGo O h fs l).1 (.rep, f) = some (.file ro2 c2)) ∨
       ∃ ro1, lookupFS fs (.src, f) = some (.file ro1 c1) ∧
         lookupFS (updateGo O h fs l).1 (.rep, f) = some (.file ro1 c1)
     | _, _ =>
       lookupFS (updateGo O h fs l).1 (.rep, f) =
         lookupFS fs (.rep, f)) := by
  induction l generalizing fs with
  | nil => cases hmem
  | cons g gs ih =>
    rcases List.mem_cons.1 hmem with hfg | hmem2
    · subst hfg
      have hfnotin : f ∉ gs := (List.nodup_cons.1 hnd).1
      have hkeep : ∀ fs2 : FS,
          lookupFS (updateGo O h fs2 gs).1 (.rep, f) =
            lookupFS fs2 (.rep, f) :=
        fun fs2 => updateGo_rep_keep O h fs2 gs f hfnotin
      rcases updateEntry_good O h fs f with ⟨e, he, hep⟩ | hgood
      · left
        refine ⟨e, ?_, hep⟩
        simp only [updateGo]
        exact List.mem_append.2 (Or.inl he)
      · right
        cases hs : lookupFS fs (.src, f) with
        | none =>
          rw [hs] at hgood
          simp only [updateGo]
          rw [hkeep]
          exact hgood
        | some e1 =>
          cases e1 with
          | dir =>
            rw [hs] at hgood
            simp only [hs] at hgood ⊢
            simp only [updateGo]
            rw [hkeep]
            exact hgood
          | file ro1 c1 =>
            cases hr : lookupFS fs (.rep, f) with
            | none =>
              rw [hs, hr] at hgood
              simp only [hs, hr] at hgood ⊢
              simp only [updateGo]
              rw [hkeep]
              exact hgood
            | some e2 =>
              cases e2 with
              | dir =>
                rw [hs, hr] at hgood
                simp only [hs, hr] at hgood ⊢
                simp only [updateGo]
                rw [hkeep]
                exact hgood
              | file ro2 c2 =>
                rw [hs, hr] at hgood
                simp only [hs, hr] at hgood ⊢
                simp only [updateGo]
                rcases hgood with ⟨hab, hlook⟩ | ⟨ro3, hs3, hlook⟩
                · exact Or.inl ⟨hab, by rw [hkeep]; exact hlook⟩
                · exact Or.inr ⟨ro3, hs3, by rw [hkeep]; exact hlook⟩
    · have hnd2 := (List.nodup_cons.1 hnd).2
      have hgf : f ≠ g := by
        intro hh
        subst hh
        exact (List.nodup_cons.1 hnd).1 hmem2
      have hsrc := updateEntry_src O h fs g f
      have hrep := updateEntry_rep_keep O h fs g f hgf
      rcases ih (updateEntry O h fs g).1 hmem2 hnd2 with ⟨e, he, hep⟩ | hgood
      · left
        refine ⟨e, ?_, hep⟩
        simp only [updateGo]
        exact List.mem_append.2 (Or.inr he)
      · right
        rw [hsrc, hrep] at hgood
        cases hs : lookupFS fs (.src, f) with
        | none =>
          simp only [hs] at hgood ⊢
          simp only [updateGo]
          exact hgood
        | some e1 =>
          cases e1 with
          | dir =>
            simp only [hs] at hgood ⊢
            simp only [updateGo]
            exact hgood
          | file ro1 c1 =>
            cases hr : lookupFS fs (.rep, f) with
            | none =>
              simp only [hs, hr] at hgood ⊢
              simp only [updateGo]
              exact hgood
            | some e2 =>
              cases e2 with
              | dir =>
                simp only [hs, hr] at hgood ⊢
                simp only [updateGo]
                exact hgood
              | file ro2 c2 =>
                simp only [hs, hr] at hgood ⊢
                simp only [updateGo]
                exact hgood

theorem mem_only_dir1 (s1 s2 : List RelPath) (p : RelPath) :
    p ∈ (compare s1 s2).only_dir1 ↔ p ∈ s1 ∧ p ∉ s2 := by
  simp [compare, List.mem_filter]

theorem mem_only_dir2 (s1 s2 : List RelPath) (p : RelPath) :
    p ∈ (compare s1 s2).only_dir2 ↔ p ∈ s2 ∧ p ∉ s1 := by
  simp [compare, List.mem_filter]

theorem mem_common (s1 s2 : List RelPath) (p : RelPath) :
    p ∈ (compare s1 s2).common ↔ p ∈ s1 ∧ p ∈ s2 := by
  simp [compare, List.mem_filter]

theorem walk_sub_keys (fs : FS) (s : Side) (p : RelPath)
    (hp : p ∈ walk fs s) : (s, p) ∈ fs.map Prod.fst := by
  induction fs with
  | nil => cases hp
  | cons kv t ih =>
    obtain ⟨⟨ks, kp⟩, e⟩ := kv
    by_cases hks : ks = s
    · subst hks
      simp only [walk, if_pos rfl] at hp
      rcases List.mem_cons.1 hp with hpk | hmem
      · subst hpk
        simp
      · simp [ih hmem]
    · simp only [walk, if_neg hks] at hp
      simp [ih hp]

theorem walk_nodup (fs : FS) (hnd : (fs.map Prod.fst).Nodup) (s : Side) :
    (walk fs s).Nodup := by
  induction fs with
  | nil => simp [walk]
  | cons kv t ih =>
    obtain ⟨⟨ks, kp⟩, e⟩ := kv
    simp only [List.map_cons, List.nodup_cons] at hnd
    by_cases hks : ks = s
    · subst hks
      simp only [walk, if_pos rfl]
      refine List.nodup_cons.2 ⟨?_, ih hnd.2⟩
      intro hmem
      exact hnd.1 (walk_sub_keys t ks kp hmem)
    · simp only [walk, if_neg hks]
      exact ih hnd.2

/-- The loop body decomposed into its phases, in the order the code runs
them: classify, purge, create, update. -/
theorem runCycle_eq (O : Oracle) (h : List Nat → Nat) (fs : FS) :
    runCycle O h fs =
      ((updateGo O h
          (createGo O
            (purgeGo O fs
              (compare (walk fs .src) (walk fs .rep)).only_dir2).1
            (compare (walk fs .src) (walk fs .rep)).only_dir1).1
          (compare (walk fs .src) (walk fs .rep)).common).1,
        compare (walk fs .src) (walk fs .rep),
        (purgeGo O fs
            (compare (walk fs .src) (walk fs .rep)).only_dir2).2 ++
          (createGo O
            (purgeGo O fs
              (compare (walk fs .src) (walk fs .rep)).only_dir2).1
            (compare (walk fs .src) (walk fs .rep)).only_dir1).2 ++
          (updateGo O h
            (createGo O
              (purgeGo O fs
                (compare (walk fs .src) (walk fs .rep)).only_dir2).1
              (compare (walk fs .src) (walk fs .rep)).only_dir1).1
            (compare (walk fs .src) (walk fs .rep)).common).2) := rfl

/-- Per-path outcome of one cycle over a well-formed pair of trees: every
path of the source snapshot either has a failure logged about it, is a
file-vs-directory clash between the sides, or ends mirrored in the replica. -/
theorem phase_outcome (O : Oracle) (h : List Nat → Nat) (fs fs1 fs2 fs3 : FS)
    (E1 E2 E3 : List Ev) (hwf : WF fs)
    (h1 : purgeGo O fs (compare (walk fs .src) (walk fs .rep)).only_dir2 =
      (fs1, E1))
    (h2 : createGo O fs1 (compare (walk fs .src) (walk fs .rep)).only_dir1 =
      (fs2, E2))
    (h3 : updateGo O h fs2 (compare (walk fs .src) (walk fs .rep)).common =
      (fs3, E3))
    (p : RelPath) (hp : p ∈ walk fs .src) :
    (∃ e ∈ E1 ++ E2 ++ E3, errPath e = some p) ∨
      (typeClash fs p ∧ lookupFS fs3 (.rep, p) = lookupFS fs (.rep, p)) ∨
      matchesAt h fs3 p := by
  have hnd1 : (walk fs Side.src).Nodup := walk_nodup fs hwf.1 .src
  have hsome := (walk_mem fs .src p).1 hp
  obtain ⟨e0, he0⟩ := Option.isSome_iff_exists.1 hsome
  have hfst1 : (purgeGo O fs
      (compare (walk fs .src) (walk fs .rep)).only_dir2).1 = fs1 :=
    congrArg Prod.fst h1
  have hfst2 : (createGo O fs1
      (compare (walk fs .src) (walk fs .rep)).only_dir1).1 = fs2 :=
    congrArg Prod.fst h2
  have hfst3 : (updateGo O h fs2
      (compare (walk fs .src) (walk fs .rep)).common).1 = fs3 :=
    congrArg Prod.fst h3
  have hsnd2 : (createGo O fs1
      (compare (walk fs .src) (walk fs .rep)).only_dir1).2 = E2 :=
    congrArg Prod.snd h2
  have hsnd3 : (updateGo O h fs2
      (compare (walk fs .src) (walk fs .rep)).common).2 = E3 :=
    congrArg Prod.snd h3
  have hsrc1 : lookupFS fs1 (.src, p) = some e0 := by
    rw [← hfst1, purgeGo_src]
    exact he0
  have hsrc2 : lookupFS fs2 (.src, p) = some e0 := by
    rw [← hfst2, createGo_src]
    exact hsrc1
  have hsrc3 : lookupFS fs3 (.src, p) = some e0 := by
    rw [← hfst3, updateGo_src]
    exact hsrc2
  by_cases hp2 : p ∈ walk fs .rep
  · -- the path is common to both snapshots
    have hpc : p ∈ (compare (walk fs .src) (walk fs .rep)).common :=
      (mem_common _ _ p).2 ⟨hp, hp2⟩
    obtain ⟨e2, he2⟩ :=
      Option.isSome_iff_exists.1 ((walk_mem fs .rep p).1 hp2)
    have hnotpre : ∀ q ∈ (compare (walk fs .src) (walk fs .rep)).only_dir2,
        ¬ q <+: p := by
      intro q hq hqp
      rcases (mem_only_dir2 _ _ q).1 hq with ⟨hq2, hq1⟩
      by_cases hqe : q = p
      · exact hq1 (hqe ▸ hp)
      · obtain ⟨eq2, heq2⟩ :=
          Option.isSome_iff_exists.1 ((walk_mem fs .rep q).1 hq2)
        have hqnil : q ≠ [] := hwf.key_ne_nil heq2
        have hdir := hwf.anc he0 hqp hqnil hqe
        exact hq1 ((walk_mem fs .src q).2 (by simp [hdir]))
    have hrep1 : lookupFS fs1 (.rep, p) = some e2 := by
      rw [← hfst1, purgeGo_rep_keep O fs _ p hnotpre]
      exact he2
    have hnot1 : p ∉ (compare (walk fs .src) (walk fs .rep)).only_dir1 :=
      fun hmem => ((mem_only_dir1 _ _ p).1 hmem).2 hp2
    have hrep2 : lookupFS fs2 (.rep, p) = some e2 := by
      rw [← hfst2]
      exact createGo_rep_some O fs1 _ p e2 hnot1 hrep1
    have hndc : (compare (walk fs .src) (walk fs .rep)).common.Nodup :=
      hnd1.filter _
    rcases updateGo_good O h fs2
        (compare (walk fs .src) (walk fs .rep)).common p hpc hndc with
      ⟨e, he, hep⟩ | hgood
    · left
      refine ⟨e, ?_, hep⟩
      have he3 : e ∈ E3 := by
        rw [← hsnd3]
        exact he
      simp [List.mem_append, he3]
    · cases e0 with
      | file ro1 c1 =>
        cases e2 with
        | file ro2 c2 =>
          simp only [hsrc2, hrep2] at hgood
          right
          right
          simp only [matchesAt, hsrc3]
          rcases hgood with ⟨hab, hl3⟩ | ⟨ro3, _, hl3⟩
          · rw [hfst3] at hl3
            simp only [hl3]
            exact hab.symm
          · rw [hfst3] at hl3
            simp only [hl3]
        | dir =>
          simp only [hsrc2, hrep2] at hgood
          right
          left
          refine ⟨by simp [typeClash, he0, he2], ?_⟩
          rw [← hfst3, hgood, he2]
      | dir =>
        cases e2 with
        | file ro2 c2 =>
          simp only [hsrc2, hrep2] at hgood
          right
          left
          refine ⟨by simp [typeClash, he0, he2], ?_⟩
          rw [← hfst3, hgood, he2]
        | dir =>
          simp only [hsrc2, hrep2] at hgood
          right
          right
          simp only [matchesAt, hsrc3]
          rw [← hfst3]
          rw [hgood]
  · -- the path is only in the source snapshot
    have hpo : p ∈ (compare (walk fs .src) (walk fs .rep)).only_dir1 :=
      (mem_only_dir1 _ _ p).2 ⟨hp, hp2⟩
    have hpnil : p ≠ [] := hwf.key_ne_nil he0
    have hndo : (compare (walk fs .src) (walk fs .rep)).only_dir1.Nodup :=
      hnd1.filter _
    have hnotc : p ∉ (compare (walk fs .src) (walk fs .rep)).common :=
      fun hmem => hp2 ((mem_common _ _ p).1 hmem).2
    rcases createGo_good O fs1
        (compare (walk fs .src) (walk fs .rep)).only_dir1 p hpnil hpo hndo
      with ⟨e, he, hep⟩ | hgood
    · left
      refine ⟨e, ?_, hep⟩
      have he2 : e ∈ E2 := by
        rw [← hsnd2]
        exact he
      simp [List.mem_append, he2]
    · cases e0 with
      | file ro c =>
        simp only [hsrc1] at hgood
        rw [hfst2] at hgood
        have hrep3 : lookupFS fs3 (.rep, p) = some (.file ro c) := by
          rw [← hfst3, updateGo_rep_keep O h fs2 _ p hnotc]
          exact hgood
        right
        right
        simp only [matchesAt, hsrc3, hrep3]
      | dir =>
        simp only [hsrc1] at hgood
        rw [hfst2] at hgood
        have hrep3 : lookupFS fs3 (.rep, p) = some .dir := by
          rw [← hfst3, updateGo_rep_keep O h fs2 _ p hnotc]
          exact hgood
        right
        right
        simp only [matchesAt, hsrc3]
        exact hrep3

theorem sync_directories_src (O : Oracle) (h : List Nat → Nat)
    (interval n : Nat) (fs : FS) (r : RelPath) :
    lookupFS (sync_directories O h interval n fs).1 (.src, r) =
      lookupFS fs (.src, r) := by
  induction n generalizing fs with
  | zero => rfl
  | succ n ih =>
    simp only [sync_directories]
    rw [ih, runCycle_src]

/-- Claim C1, amended: after one cycle over a well-formed pair of trees,
every relative path present in the source snapshot at classification time is
present in the replica with matching type and, for regular files, matching
content digest — except paths whose per-entry operation logged a failure,
and common paths whose entry type (file vs directory) differs between the
two sides at classification time, which the cycle leaves untouched with no
log record. -/
theorem C1_cycle_mirrors_source (O : Oracle) (h : List Nat → Nat) (fs : FS)
    (hwf : WF fs) (p : RelPath) (hp : p ∈ walk fs Side.src) :
    (∃ e ∈ (runCycle O h fs).2.2, errPath e = some p) ∨
      typeClash fs p ∨ matchesAt h (runCycle O h fs).1 p := by
  rcases phase_outcome O h fs _ _ _ _ _ _ hwf rfl rfl rfl p hp with
    he | ⟨hc, -⟩ | hm
  · exact Or.inl he
  · exact Or.inr (Or.inl hc)
  · exact Or.inr (Or.inr hm)

theorem C1_cycle_mirrors_source_witness :
    WF [((Side.src, ["a"]), Entry.file false [1])] ∧
    ["a"] ∈ walk [((Side.src, ["a"]), Entry.file false [1])] Side.src ∧
    ((∃ e ∈ (runCycle okOracle List.length
        [((Side.src, ["a"]), Entry.file false [1])]).2.2,
        errPath e = some ["a"]) ∨
      typeClash [((Side.src, ["a"]), Entry.file false [1])] ["a"] ∨
      matchesAt List.length (runCycle okOracle List.length
        [((Side.src, ["a"]), Entry.file false [1])]).1 ["a"]) :=
  ⟨by decide, by decide,
    C1_cycle_mirrors_source okOracle List.length
      [((Side.src, ["a"]), Entry.file false [1])] (by decide) ["a"]
      (by decide)⟩

/-- Claim C1, counterexample to the claim as stated: the source holds a
regular file at `f`, the replica a directory; the cycle logs nothing and
leaves the replica directory in place, so the path is not present in the
replica with matching type although no per-entry operation logged a
failure. -/
theorem C1_counterexample :
    WF [((Side.src, ["f"]), Entry.file false [1]),
      ((Side.rep, ["f"]), Entry.dir)] ∧
    ["f"] ∈ walk [((Side.src, ["f"]), Entry.file false [1]),
      ((Side.rep, ["f"]), Entry.dir)] Side.src ∧
    (runCycle okOracle List.length
      [((Side.src, ["f"]), Entry.file false [1]),
        ((Side.rep, ["f"]), Entry.dir)]).2.2 = [] ∧
    ¬ matchesAt List.length (runCycle okOracle List.length
      [((Side.src, ["f"]), Entry.file false [1]),
        ((Side.rep, ["f"]), Entry.dir)]).1 ["f"] := by
  refine ⟨by decide, by decide, by decide, by decide⟩

/-- Claim C2: `compare` computes exactly the partition
common = S1 ∩ S2, only_dir1 = S1 − common, only_dir2 = S2 − common: the
three classes are characterized by membership in the two snapshots, they are
pairwise disjoint, their union is S1 ∪ S2, and every path of S1 ∪ S2 falls
in exactly one class.  `compare` is a total function on the two in-memory
snapshots by construction. -/
theorem C2_compare_partitions (s1 s2 : List RelPath) (p : RelPath) :
    (p ∈ (compare s1 s2).common ↔ p ∈ s1 ∧ p ∈ s2) ∧
    (p ∈ (compare s1 s2).only_dir1 ↔ p ∈ s1 ∧ p ∉ s2) ∧
    (p ∈ (compare s1 s2).only_dir2 ↔ p ∈ s2 ∧ p ∉ s1) ∧
    (p ∈ s1 ∨ p ∈ s2 →
      (p ∈ (compare s1 s2).common ∧ p ∉ (compare s1 s2).only_dir1 ∧
        p ∉ (compare s1 s2).only_dir2) ∨
      (p ∉ (compare s1 s2).common ∧ p ∈ (compare s1 s2).only_dir1 ∧
        p ∉ (compare s1 s2).only_dir2) ∨
      (p ∉ (compare s1 s2).common ∧ p ∉ (compare s1 s2).only_dir1 ∧
        p ∈ (compare s1 s2).only_dir2)) ∧
    (p ∈ (compare s1 s2).common ∨ p ∈ (compare s1 s2).only_dir1 ∨
        p ∈ (compare s1 s2).only_dir2 →
      p ∈ s1 ∨ p ∈ s2) := by
  simp only [mem_common, mem_only_dir1, mem_only_dir2]
  by_cases h1 : p ∈ s1 <;> by_cases h2 : p ∈ s2 <;> simp [h1, h2]

theorem C2_compare_partitions_witness :
    (["x"] ∈ (compare [["x"]] [["x"], ["y"]]).common ↔
      ["x"] ∈ [["x"]] ∧ ["x"] ∈ [["x"], ["y"]]) ∧
    (["x"] ∈ (compare [["x"]] [["x"], ["y"]]).only_dir1 ↔
      ["x"] ∈ [["x"]] ∧ ["x"] ∉ [["x"], ["y"]]) ∧
    (["x"] ∈ (compare [["x"]] [["x"], ["y"]]).only_dir2 ↔
      ["x"] ∈ [["x"], ["y"]] ∧ ["x"] ∉ [["x"]]) ∧
    (["x"] ∈ [["x"]] ∨ ["x"] ∈ [["x"], ["y"]] →
      (["x"] ∈ (compare [["x"]] [["x"], ["y"]]).common ∧
        ["x"] ∉ (compare [["x"]] [["x"], ["y"]]).only_dir1 ∧
        ["x"] ∉ (compare [["x"]] [["x"], ["y"]]).only_dir2) ∨
      (["x"] ∉ (compare [["x"]] [["x"], ["y"]]).common ∧
        ["x"] ∈ (compare [["x"]] [["x"], ["y"]]).only_dir1 ∧
        ["x"] ∉ (compare [["x"]] [["x"], ["y"]]).only_dir2) ∨
      (["x"] ∉ (compare [["x"]] [["x"], ["y"]]).common ∧
        ["x"] ∉ (compare [["x"]] [["x"], ["y"]]).only_dir1 ∧
        ["x"] ∈ (compare [["x"]] [["x"], ["y"]]).only_dir2)) ∧
    (["x"] ∈ (compare [["x"]] [["x"], ["y"]]).common ∨
        ["x"] ∈ (compare [["x"]] [["x"], ["y"]]).only_dir1 ∨
        ["x"] ∈ (compare [["x"]] [["x"], ["y"]]).only_dir2 →
      ["x"] ∈ [["x"]] ∨ ["x"] ∈ [["x"], ["y"]]) :=
  C2_compare_partitions [["x"]] [["x"], ["y"]] ["x"]

/-- Claim C10: no filesystem entry under the source root is ever created,
modified, or deleted — neither by one cycle nor by any number of loop
iterations; every destructive operation of the model targets the replica
side only. -/
theorem C10_source_side_read_only (O : Oracle) (h : List Nat → Nat)
    (interval n : Nat) (fs : FS) (r : RelPath) :
    lookupFS (sync_directories O h interval n fs).1 (.src, r) =
      lookupFS fs (.src, r) ∧
    lookupFS (runCycle O h fs).1 (.src, r) = lookupFS fs (.src, r) :=
  ⟨sync_directories_src O h interval n fs r, runCycle_src O h fs r⟩

/-- An oracle on which only the post-`chmod` retry `unlink` fails. -/
def retryFailOracle : Oracle where
  unlinkOsErr _ := false
  retryFail _ := true
  rmtreeFail _ := false
  mkdirFail _ := false
  copyFail _ := false
  hashFail _ _ := false

/-- Claim C6: for an only-in-replica file whose first deletion attempt
raises a permission error (a write-protected file), `delete_file` clears the
read-only attribute and retries the `unlink` exactly once within the same
cycle (the model's write-protected branch performs precisely one `chmod`
followed by one retry); if the retry fails too, the exception escapes to the
purge loop, which logs "Error purging" for that entry and continues with the
remaining entries. -/
theorem C6_delete_retry_once (O : Oracle) (fs : FS) (p : RelPath)
    (c : List Nat) (l2 : List RelPath)
    (hro : lookupFS fs (.rep, p) = some (.file true c)) :
    (O.retryFail p = false →
      purgeGo O fs (p :: l2) =
        ((purgeGo O
            (eraseFS (writeFS fs (.rep, p) (.file false c)) (.rep, p)) l2).1,
          Ev.deletingFile p ::
            (purgeGo O
              (eraseFS (writeFS fs (.rep, p) (.file false c))
                (.rep, p)) l2).2)) ∧
    (O.retryFail p = true →
      purgeGo O fs (p :: l2) =
        ((purgeGo O (writeFS fs (.rep, p) (.file false c)) l2).1,
          Ev.deletingFile p :: Ev.errPurge p ::
            (purgeGo O (writeFS fs (.rep, p) (.file false c)) l2).2)) := by
  constructor
  · intro hret
    simp [purgeGo, purgeEntry, delete_file, hro, hret]
  · intro hret
    simp [purgeGo, purgeEntry, delete_file, hro, hret]

theorem C6_delete_retry_once_witness :
    lookupFS [((Side.rep, ["r"]), Entry.file true [0]),
        ((Side.rep, ["s"]), Entry.file false [1])]
      (Side.rep, ["r"]) = some (Entry.file true [0]) ∧
    ((retryFailOracle.retryFail ["r"] = false →
      purgeGo retryFailOracle
          [((Side.rep, ["r"]), Entry.file true [0]),
            ((Side.rep, ["s"]), Entry.file false [1])] (["r"] :: [["s"]]) =
        ((purgeGo retryFailOracle
            (eraseFS (writeFS [((Side.rep, ["r"]), Entry.file true [0]),
                ((Side.rep, ["s"]), Entry.file false [1])]
              (.rep, ["r"]) (.file false [0])) (.rep, ["r"])) [["s"]]).1,
          Ev.deletingFile ["r"] ::
            (purgeGo retryFailOracle
              (eraseFS (writeFS [((Side.rep, ["r"]), Entry.file true [0]),
                  ((Side.rep, ["s"]), Entry.file false [1])]
                (.rep, ["r"]) (.file false [0])) (.rep, ["r"])) [["s"]]).2)) ∧
    (retryFailOracle.retryFail ["r"] = true →
      purgeGo retryFailOracle
          [((Side.rep, ["r"]), Entry.file true [0]),
            ((Side.rep, ["s"]), Entry.file false [1])] (["r"] :: [["s"]]) =
        ((purgeGo retryFailOracle
            (writeFS [((Side.rep, ["r"]), Entry.file true [0]),
                ((Side.rep, ["s"]), Entry.file false [1])]
              (.rep, ["r"]) (.file false [0])) [["s"]]).1,
          Ev.deletingFile ["r"] :: Ev.errPurge ["r"] ::
            (purgeGo retryFailOracle
              (writeFS [((Side.rep, ["r"]), Entry.file true [0]),
                  ((Side.rep, ["s"]), Entry.file false [1])]
                (.rep, ["r"]) (.file false [0])) [["s"]]).2))) :=
  ⟨by decide,
    C6_delete_retry_once retryFailOracle
      [((Side.rep, ["r"]), Entry.file true [0]),
        ((Side.rep, ["s"]), Entry.file false [1])]
      ["r"] [0] [["s"]] (by decide)⟩

/-- Claim C7: within every cycle the phases run in the fixed order
walk source, walk replica, classify, purge, create
(`checks_only_on_source`), update, and the loop then sleeps for the
configured interval before the next cycle; the cycle's log is the purge
phase's records, then the create phase's, then the update phase's, so in
particular every purge action of a cycle precedes every create action. -/
theorem C7_phase_order (O : Oracle) (h : List Nat → Nat) (fs : FS)
    (interval n : Nat) :
    runCycle O h fs =
      ((update_common_files O h
          (checks_only_on_source O
            (purge O fs (compare (walk fs .src) (walk fs .rep))).1
            (compare (walk fs .src) (walk fs .rep))).1
          (compare (walk fs .src) (walk fs .rep))).1,
        compare (walk fs .src) (walk fs .rep),
        (purge O fs (compare (walk fs .src) (walk fs .rep))).2 ++
          (checks_only_on_source O
            (purge O fs (compare (walk fs .src) (walk fs .rep))).1
            (compare (walk fs .src) (walk fs .rep))).2 ++
          (update_common_files O h
            (checks_only_on_source O
              (purge O fs (compare (walk fs .src) (walk fs .rep))).1
              (compare (walk fs .src) (walk fs .rep))).1
            (compare (walk fs .src) (walk fs .rep))).2) ∧
    sync_directories O h interval (n + 1) fs =
      ((sync_directories O h interval n (runCycle O h fs).1).1,
        (runCycle O h fs).2.2 ++ Ev.sleep interval ::
          (sync_directories O h interval n (runCycle O h fs).1).2) :=
  ⟨rfl, rfl⟩

theorem updateEntry_ev_origin (O : Oracle) (h : List Nat → Nat) (fs : FS)
    (g : RelPath) (e : Ev) (he : e ∈ (updateEntry O h fs g).2) :
    e = .updated g ∨ e = .errUpdate g ∨ e = .errHash .src g ∨
      e = .errHash .rep g := by
  unfold updateEntry at he
  split at he
  · split at he
    · split at he
      · split at he
        · simp only [List.mem_singleton] at he
          exact Or.inr (Or.inl he)
        · simp only [List.mem_singleton] at he
          exact Or.inl he
      · simp at he
    · simp only [List.mem_singleton] at he
      exact Or.inr (Or.inr (Or.inr he))
    · simp only [List.mem_singleton] at he
      exact Or.inr (Or.inr (Or.inl he))
    · simp only [List.mem_cons, List.not_mem_nil, or_false] at he
      rcases he with he | he
      · exact Or.inr (Or.inr (Or.inl he))
      · exact Or.inr (Or.inr (Or.inr he))
  · simp at he

theorem updateGo_ev_origin (O : Oracle) (h : List Nat → Nat) (fs : FS)
    (l : List RelPath) (e : Ev) (he : e ∈ (updateGo O h fs l).2) :
    ∃ g ∈ l, e = .updated g ∨ e = .errUpdate g ∨ e = .errHash .src g ∨
      e = .errHash .rep g := by
  induction l generalizing fs with
  | nil => simp [updateGo] at he
  | cons g gs ih =>
    simp only [updateGo, List.mem_append] at he
    rcases he with he | he
    · exact ⟨g, by simp, updateEntry_ev_origin O h fs g e he⟩
    · rcases ih _ he with ⟨g2, hg2, hc⟩
      exact ⟨g2, by simp [hg2], hc⟩

/-- Claim C3: for a common path that is a regular file on both sides, and
whose copy call would succeed, `update_common_files` overwrites the replica
file with the source file's contents and logs the action if and only if both
digest computations succeed and the digests differ; if either digest
computation fails the entry is skipped without copying and the failure is
logged; if the digests are equal no action is taken. -/
theorem C3_update_copy_iff (O : Oracle) (h : List Nat → Nat) (fs : FS)
    (l : List RelPath) (f : RelPath) (ro1 ro2 : Bool) (c1 c2 : List Nat)
    (hmem : f ∈ l) (hnd : l.Nodup)
    (hs : lookupFS fs (.src, f) = some (.file ro1 c1))
    (hr : lookupFS fs (.rep, f) = some (.file ro2 c2))
    (hcf : O.copyFail f = false) :
    ((Ev.updated f ∈ (updateGo O h fs l).2 ∧
        lookupFS (updateGo O h fs l).1 (.rep, f) = some (.file ro1 c1)) ↔
      (O.hashFail .src f = false ∧ O.hashFail .rep f = false ∧
        h c1 ≠ h c2)) ∧
    ((O.hashFail .src f = true ∨ O.hashFail .rep f = true) →
      lookupFS (updateGo O h fs l).1 (.rep, f) = some (.file ro2 c2) ∧
        Ev.updated f ∉ (updateGo O h fs l).2 ∧
        (Ev.errHash .src f ∈ (updateGo O h fs l).2 ∨
          Ev.errHash .rep f ∈ (updateGo O h fs l).2)) ∧
    (O.hashFail .src f = false → O.hashFail .rep f = false →
      h c1 = h c2 →
      lookupFS (updateGo O h fs l).1 (.rep, f) = some (.file ro2 c2) ∧
        Ev.updated f ∉ (updateGo O h fs l).2) := by
  obtain ⟨t1, t2, rfl⟩ := List.append_of_mem hmem
  rw [List.nodup_append] at hnd
  obtain ⟨hnd1, hnd2, hdisj⟩ := hnd
  have hnotin1 : f ∉ t1 := fun hin => hdisj hin (List.mem_cons_self f t2)
  have hnotin2 : f ∉ t2 := (List.nodup_cons.1 hnd2).1
  have hs1 : lookupFS (updateGo O h fs t1).1 (.src, f) =
      some (.file ro1 c1) := by
    rw [updateGo_src]
    exact hs
  have hr1 : lookupFS (updateGo O h fs t1).1 (.rep, f) =
      some (.file ro2 c2) := by
    rw [updateGo_rep_keep O h fs t1 f hnotin1]
    exact hr
  have hdec : updateGo O h fs (t1 ++ f :: t2) =
      ((updateGo O h (updateEntry O h (updateGo O h fs t1).1 f).1 t2).1,
        (updateGo O h fs t1).2 ++
          ((updateEntry O h (updateGo O h fs t1).1 f).2 ++
            (updateGo O h (updateEntry O h (updateGo O h fs t1).1 f).1
              t2).2)) := by
    rw [updateGo_append]
    rfl
  have hlfin : lookupFS (updateGo O h fs (t1 ++ f :: t2)).1 (.rep, f) =
      lookupFS (updateEntry O h (updateGo O h fs t1).1 f).1 (.rep, f) := by
    rw [hdec]
    exact updateGo_rep_keep O h _ t2 f hnotin2
  have hmem_entry : ∀ e, e ∈ (updateEntry O h (updateGo O h fs t1).1 f).2 →
      e ∈ (updateGo O h fs (t1 ++ f :: t2)).2 := by
    intro e he
    rw [hdec]
    simp only [List.mem_append]
    exact Or.inr (Or.inl he)
  have hupd_mem : Ev.updated f ∈ (updateGo O h fs (t1 ++ f :: t2)).2 ↔
      Ev.updated f ∈ (updateEntry O h (updateGo O h fs t1).1 f).2 := by
    constructor
    · intro hin
      rw [hdec] at hin
      simp only [List.mem_append] at hin
      rcases hin with hin | hin | hin
      · exfalso
        rcases updateGo_ev_origin O h fs t1 _ hin with
          ⟨g, hg, hc | hc | hc | hc⟩
        · injection hc with hfg
          exact hnotin1 (by rw [hfg]; exact hg)
        · cases hc
        · cases hc
        · cases hc
      · exact hin
      · exfalso
        rcases updateGo_ev_origin O h _ t2 _ hin with
          ⟨g, hg, hc | hc | hc | hc⟩
        · injection hc with hfg
          exact hnotin2 (by rw [hfg]; exact hg)
        · cases hc
        · cases hc
        · cases hc
    · exact hmem_entry _
  by_cases hf1 : O.hashFail .src f = true
  · have hval : updateEntry O h (updateGo O h fs t1).1 f =
        ((updateGo O h fs t1).1,
          if O.hashFail .rep f = true
          then [Ev.errHash .src f, Ev.errHash .rep f]
          else [Ev.errHash .src f]) := by
      by_cases hf2 : O.hashFail .rep f = true <;>
        simp [updateEntry, hs1, hr1, calculate_sha256, hf1, hf2]
    refine ⟨⟨?_, ?_⟩, ?_, ?_⟩
    · rintro ⟨hupd, -⟩
      exfalso
      have hmm := hupd_mem.1 hupd
      rw [hval] at hmm
      by_cases hf2 : O.hashFail .rep f = true <;> simp [hf2] at hmm
    · rintro ⟨hc1, -, -⟩
      rw [hf1] at hc1
      cases hc1
    · intro _
      refine ⟨?_, ?_, ?_⟩
      · rw [hlfin, hval]
        exact hr1
      · intro hupd
        have hmm := hupd_mem.1 hupd
        rw [hval] at hmm
        by_cases hf2 : O.hashFail .rep f = true <;> simp [hf2] at hmm
      · left
        apply hmem_entry
        rw [hval]
        by_cases hf2 : O.hashFail .rep f = true <;> simp [hf2]
    · intro hc1 _ _
      rw [hf1] at hc1
      cases hc1
  · have hf1' : O.hashFail .src f = false := by
      simpa using hf1
    by_cases hf2 : O.hashFail .rep f = true
    · have hval : updateEntry O h (updateGo O h fs t1).1 f =
          ((updateGo O h fs t1).1, [Ev.errHash .rep f]) := by
        simp [updateEntry, hs1, hr1, calculate_sha256, hf1, hf2]
      refine ⟨⟨?_, ?_⟩, ?_, ?_⟩
      · rintro ⟨hupd, -⟩
        exfalso
        have hmm := hupd_mem.1 hupd
        rw [hval] at hmm
        simp at hmm
      · rintro ⟨-, hc2, -⟩
        rw [hf2] at hc2
        cases hc2
      · intro _
        refine ⟨?_, ?_, ?_⟩
        · rw [hlfin, hval]
          exact hr1
        · intro hupd
          have hmm := hupd_mem.1 hupd
          rw [hval] at hmm
          simp at hmm
        · right
          apply hmem_entry
          rw [hval]
          simp
      · intro _ hc2 _
        rw [hf2] at hc2
        cases hc2
    · have hf2' : O.hashFail .rep f = false := by
        simpa using hf2
      by_cases hab : h c1 = h c2
      · have hval : updateEntry O h (updateGo O h fs t1).1 f =
            ((updateGo O h fs t1).1, []) := by
          simp [updateEntry, hs1, hr1, calculate_sha256, hf1, hf2, hab]
        refine ⟨⟨?_, ?_⟩, ?_, ?_⟩
        · rintro ⟨hupd, -⟩
          exfalso
          have hmm := hupd_mem.1 hupd
          rw [hval] at hmm
          simp at hmm
        · rintro ⟨-, -, habne⟩
          exact absurd hab habne
        · rintro (hc | hc)
          · rw [hf1'] at hc
            cases hc
          · rw [hf2'] at hc
            cases hc
        · intro _ _ _
          refine ⟨?_, ?_⟩
          · rw [hlfin, hval]
            exact hr1
          · intro hupd
            have hmm := hupd_mem.1 hupd
            rw [hval] at hmm
            simp at hmm
      · have hval : updateEntry O h (updateGo O h fs t1).1 f =
            (writeFS (updateGo O h fs t1).1 (.rep, f) (.file ro1 c1),
              [Ev.updated f]) := by
          simp [updateEntry, hs1, hr1, calculate_sha256, hf1, hf2, hab, hcf]
        refine ⟨⟨?_, ?_⟩, ?_, ?_⟩
        · intro _
          exact ⟨hf1', hf2', hab⟩
        · intro _
          constructor
          · apply hmem_entry
            rw [hval]
            simp
          · rw [hlfin, hval, lookup_writeFS]
            simp
        · rintro (hc | hc)
          · rw [hf1'] at hc
            cases hc
          · rw [hf2'] at hc
            cases hc
        · intro _ _ habeq
          exact absurd habeq hab

theorem C3_update_copy_iff_witness :
    (["f"] ∈ [["f"]] ∧ ([["f"]] : List RelPath).Nodup ∧
      lookupFS [((Side.src, ["f"]), Entry.file false [1]),
          ((Side.rep, ["f"]), Entry.file false [1, 2])]
        (Side.src, ["f"]) = some (Entry.file false [1]) ∧
      lookupFS [((Side.src, ["f"]), Entry.file false [1]),
          ((Side.rep, ["f"]), Entry.file false [1, 2])]
        (Side.rep, ["f"]) = some (Entry.file false [1, 2]) ∧
      okOracle.copyFail ["f"] = false) ∧
    ((Ev.updated ["f"] ∈ (updateGo okOracle List.length
        [((Side.src, ["f"]), Entry.file false [1]),
          ((Side.rep, ["f"]), Entry.file false [1, 2])] [["f"]]).2 ∧
      lookupFS (updateGo okOracle List.length
        [((Side.src, ["f"]), Entry.file false [1]),
          ((Side.rep, ["f"]), Entry.file false [1, 2])] [["f"]]).1
        (.rep, ["f"]) = some (.file false [1])) ↔
      (okOracle.hashFail .src ["f"] = false ∧
        okOracle.hashFail .rep ["f"] = false ∧
        List.length [1] ≠ List.length [1, 2])) :=
  ⟨⟨by decide, by decide, by decide, by decide, by decide⟩,
    (C3_update_copy_iff okOracle List.length
      [((Side.src, ["f"]), Entry.file false [1]),
        ((Side.rep, ["f"]), Entry.file false [1, 2])]
      [["f"]] ["f"] false false [1] [1, 2] (by decide) (by decide)
      (by decide) (by decide) (by decide)).1⟩

/-- Failure flags for the OS calls of `MyClass.update_common_files`
(src/functions.py lines 181-220). -/
structure MyOracle where
  statDirFail : RelPath → Bool
  stat1Fail : RelPath → Bool
  stat2Fail : RelPath → Bool
  hashFail : Side → RelPath → Bool
  copyFail : RelPath → Bool

/-- Log records printed by `MyClass.update_common_files`. -/
inductive MEv
  | errAccess (p : RelPath)
  | errHashM (s : Side) (p : RelPath)
  | updatedM (p : RelPath)
  | errUpdateM (p : RelPath)
deriving DecidableEq

/-- One iteration of the `MyClass.update_common_files` loop (src/functions.py
lines 185-220).  The Bool reports whether the iteration executed one of the
two bare `return` statements (lines 202 and 207): a failure of `os.stat` on
`file1` or `file2` prints the error and then RETURNS from the function,
instead of `continue`-ing like every other per-entry handler. -/
def myUpdateEntry (O : MyOracle) (h : List Nat → Nat) (fs : FS)
    (f : RelPath) : FS × List MEv × Bool :=
  match lookupFS fs (.src, f) with
  | none => (fs, [.errAccess f], false)
  | some Entry.dir =>
    if O.statDirFail f then (fs, [.errAccess f], false) else (fs, [], false)
  | some (Entry.file ro c) =>
    if O.statDirFail f then (fs, [.errAccess f], false)
    else if O.stat1Fail f then (fs, [.errAccess f], true)
    else if O.stat2Fail f = true ∨ lookupFS fs (.rep, f) = none then
      (fs, [.errAccess f], true)
    else
      match (if O.hashFail .src f = true then none else some (h c)),
        (match lookupFS fs (.rep, f) with
         | some (.file _ c2) =>
           if O.hashFail .rep f = true then none else some (h c2)
         | _ => none) with
      | some a, some b =>
        if a ≠ b then
          if O.copyFail f then (fs, [.errUpdateM f], false)
          else (writeFS fs (.rep, f) (.file ro c), [.updatedM f], false)
        else (fs, [], false)
      | some _, none => (fs, [.errHashM .rep f], false)
      | none, some _ => (fs, [.errHashM .src f], false)
      | none, none => (fs, [.errHashM .src f, .errHashM .rep f], false)

/-- The `MyClass.update_common_files` loop: a `return` from an iteration
aborts the remaining entries; the Bool of the result records the abort. -/
def myUpdateGo (O : MyOracle) (h : List Nat → Nat) :
    FS → List RelPath → FS × List MEv × Bool
  | fs, [] => (fs, [], false)
  | fs, f :: ps =>
    if (myUpdateEntry O h fs f).2.2 then
      ((myUpdateEntry O h fs f).1, (myUpdateEntry O h fs f).2.1, true)
    else
      ((myUpdateGo O h (myUpdateEntry O h fs f).1 ps).1,
        (myUpdateEntry O h fs f).2.1 ++
          (myUpdateGo O h (myUpdateEntry O h fs f).1 ps).2.1,
        (myUpdateGo O h (myUpdateEntry O h fs f).1 ps).2.2)

/-- The oracle on which only `os.stat` of the replica-side counterpart of
path `a` raises. -/
def stat2FailOracle : MyOracle where
  statDirFail _ := false
  stat1Fail _ := false
  stat2Fail p := decide (p = ["a"])
  hashFail _ _ := false
  copyFail _ := false

/-- The all-success oracle for the `MyClass` model. -/
def myOkOracle : MyOracle where
  statDirFail _ := false
  stat1Fail _ := false
  stat2Fail _ := false
  hashFail _ _ := false
  copyFail _ := false

/-- Claim C5, the code bug exhibited: in `MyClass.update_common_files`
(src/functions.py), when `os.stat` on the replica-side file of entry `a`
fails, the handler prints the error and `return`s, aborting the update phase:
entry `b`, whose contents differ between the sides, is never examined and
keeps its stale replica content — although the same loop with no stat
failure does update `b`.  The spec's propagation policy ("no error at
per-entry granularity escalates to abort the cycle", "simply proceeds to the
next entry or phase") requires a `continue` here, as every sibling handler
in the repository uses. -/
theorem C5_functions_update_abort :
    myUpdateGo stat2FailOracle List.length
        [((Side.src, ["a"]), Entry.file false [1]),
          ((Side.rep, ["a"]), Entry.file false [1]),
          ((Side.src, ["b"]), Entry.file false [1]),
          ((Side.rep, ["b"]), Entry.file false [2, 2])]
        [["a"], ["b"]] =
      ([((Side.src, ["a"]), Entry.file false [1]),
          ((Side.rep, ["a"]), Entry.file false [1]),
          ((Side.src, ["b"]), Entry.file false [1]),
          ((Side.rep, ["b"]), Entry.file false [2, 2])],
        [MEv.errAccess ["a"]], true) ∧
    lookupFS (myUpdateGo myOkOracle List.length
        [((Side.src, ["a"]), Entry.file false [1]),
          ((Side.rep, ["a"]), Entry.file false [1]),
          ((Side.src, ["b"]), Entry.file false [1]),
          ((Side.rep, ["b"]), Entry.file false [2, 2])]
        [["a"], ["b"]]).1 (Side.rep, ["b"]) =
      some (Entry.file false [1]) ∧
    (myUpdateGo myOkOracle List.length
        [((Side.src, ["a"]), Entry.file false [1]),
          ((Side.rep, ["a"]), Entry.file false [1]),
          ((Side.src, ["b"]), Entry.file false [1]),
          ((Side.rep, ["b"]), Entry.file false [2, 2])]
        [["a"], ["b"]]).2.2 = false := by
  refine ⟨by decide, by decide, by decide⟩

/-- The module-level global `source` of src/main.py (line 185). -/
def module_source : String := "tests/folder1"

/-- What `main()` does after argument parsing. -/
inductive MainResult
  | abortedNoSource
  | enteredLoop (dir1 dir2 : String)
deriving DecidableEq

/-- `main()` of src/main.py (lines 194-222): after parsing `args`, the code
runs `if not Path(source).exists()` — `source` being the module-level global
`"tests/folder1"`, not `args.source` — printing and returning when that
check fails, and otherwise constructing
`DirectorySynchronizer(dir1=args.source, dir2=args.replica, ...)` and
calling `sync_directories()`. -/
def mainModel (pathExists : String → Bool) (argsSource argsReplica : String) :
    MainResult :=
  if pathExists module_source then
    MainResult.enteredLoop argsSource argsReplica
  else MainResult.abortedNoSource

/-- Claim C9, the code bug exhibited: the startup existence check of main.py
tests the hardcoded module-level path, not the operator-supplied source.
With `tests/folder1` present but `args.source` missing, the process enters
the synchronization loop on the missing source with nothing reported; with
`args.source` present but `tests/folder1` missing, the process aborts even
though the supplied source exists. -/
theorem C9_main_checks_wrong_path :
    mainModel (fun s => decide (s = "tests/folder1")) "missing" "rep" =
      MainResult.enteredLoop "missing" "rep" ∧
    (fun s => decide (s = "tests/folder1")) "missing" = false ∧
    mainModel (fun s => decide (s = "real")) "real" "rep" =
      MainResult.abortedNoSource ∧
    (fun s => decide (s = "real")) "real" = true := by
  refine ⟨by decide, by decide, by decide, by decide⟩

/-- Host path-separator convention. -/
inductive Sep
  | posix
  | windows
deriving DecidableEq

/-- The native separator character `os.path.join` and `os.path.relpath`
use. -/
def sepChar : Sep → Char
  | .posix => '/'
  | .windows => '\\'

/-- The characters the host's path syntax treats as separators when parsing
(pathlib accepts both `/` and the backslash on Windows, only `/` on
POSIX). -/
def isSepChar : Sep → Char → Bool
  | .posix, ch => ch == '/'
  | .windows, ch => ch == '/' || ch == '\\'

/-- A relative path spelled with the host's native separator between the
name components, as `os.path.relpath(os.path.join(cwd, f), directory)`
yields it (src/functions.py line 20).  Path strings are modelled as
character lists. -/
def nativeJoin (s : Sep) : List (List Char) → List Char
  | [] => []
  | [c] => c
  | c :: rest => c ++ sepChar s :: nativeJoin s rest

/-- `path.replace('\\', '/')` of the walker (src/functions.py line 21). -/
def normalizeSeps (t : List Char) : List Char :=
  t.map fun ch => if ch = '\\' then '/' else ch

/-- How pathlib parses a path string into its component tuple; two `Path`
values of one flavor are equal exactly when their parsed components are
(synchronizer.py lines 47-54 store such values in the snapshot sets). -/
def splitPath (isSep : Char → Bool) : List Char → List (List Char)
  | [] => [[]]
  | ch :: rest =>
    if isSep ch then [] :: splitPath isSep rest
    else
      match splitPath isSep rest with
      | [] => [[ch]]
      | piece :: more => (ch :: piece) :: more

theorem splitPath_no_sep (isSep : Char → Bool) (t : List Char)
    (ht : ∀ ch ∈ t, isSep ch = false) : splitPath isSep t = [t] := by
  induction t with
  | nil => rfl
  | cons ch rest ih =>
    have hch : isSep ch = false := ht ch (by simp)
    have hrest := ih fun c hc => ht c (by simp [hc])
    simp [splitPath, hch, hrest]

theorem splitPath_append_sep (isSep : Char → Bool) (a b : List Char)
    (sep : Char) (ha : ∀ ch ∈ a, isSep ch = false)
    (hsep : isSep sep = true) :
    splitPath isSep (a ++ sep :: b) = a :: splitPath isSep b := by
  induction a with
  | nil => simp [splitPath, hsep]
  | cons ch rest ih =>
    have hch : isSep ch = false := ha ch (by simp)
    have hrest := ih fun c hc => ha c (by simp [hc])
    simp [splitPath, hch, hrest]

theorem splitPath_nativeJoin (s : Sep) (isSep : Char → Bool)
    (comps : List (List Char)) (hne : comps ≠ [])
    (hfree : ∀ t ∈ comps, ∀ ch ∈ t, isSep ch = false)
    (hsep : isSep (sepChar s) = true) :
    splitPath isSep (nativeJoin s comps) = comps := by
  induction comps with
  | nil => exact absurd rfl hne
  | cons c rest ih =>
    cases rest with
    | nil =>
      simp only [nativeJoin]
      exact splitPath_no_sep isSep c (hfree c (by simp))
    | cons c2 rest2 =>
      have hjoin : nativeJoin s (c :: c2 :: rest2) =
          c ++ sepChar s :: nativeJoin s (c2 :: rest2) := rfl
      rw [hjoin, splitPath_append_sep isSep c _ _ (hfree c (by simp)) hsep,
        ih (by simp) fun t ht ch hch => hfree t (by simp [ht]) ch hch]

theorem normalizeSeps_free (t : List Char)
    (ht : ∀ ch ∈ t, ch ≠ '\\') : normalizeSeps t = t := by
  induction t with
  | nil => rfl
  | cons ch rest ih =>
    have hch : ch ≠ '\\' := ht ch (by simp)
    have hrest := ih fun c hc => ht c (by simp [hc])
    simp only [normalizeSeps] at hrest ⊢
    simp [hch, hrest]

theorem normalizeSeps_join (comps : List (List Char))
    (hfree : ∀ t ∈ comps, ∀ ch ∈ t, ch ≠ '\\') :
    normalizeSeps (nativeJoin .windows comps) = nativeJoin .posix comps := by
  induction comps with
  | nil => rfl
  | cons c rest ih =>
    cases rest with
    | nil =>
      simp only [nativeJoin]
      exact normalizeSeps_free c (hfree c (by simp))
    | cons c2 rest2 =>
      have hj1 : nativeJoin .windows (c :: c2 :: rest2) =
          c ++ sepChar .windows :: nativeJoin .windows (c2 :: rest2) := rfl
      have hj2 : nativeJoin .posix (c :: c2 :: rest2) =
          c ++ sepChar .posix :: nativeJoin .posix (c2 :: rest2) := rfl
      rw [hj1, hj2]
      simp only [normalizeSeps, List.map_append, List.map_cons]
      rw [← normalizeSeps, ← normalizeSeps,
        normalizeSeps_free c (hfree c (by simp)),
        ih fun t ht ch hch => hfree t (by simp [ht]) ch hch]
      rfl

theorem nativeJoin_chars (s : Sep) (comps : List (List Char)) (ch : Char)
    (hch : ch ∈ nativeJoin s comps) :
    (∃ t ∈ comps, ch ∈ t) ∨ ch = sepChar s := by
  induction comps with
  | nil => cases hch
  | cons c rest ih =>
    cases rest with
    | nil =>
      simp only [nativeJoin] at hch
      exact Or.inl ⟨c, by simp, hch⟩
    | cons c2 rest2 =>
      have hj : nativeJoin s (c :: c2 :: rest2) =
          c ++ sepChar s :: nativeJoin s (c2 :: rest2) := rfl
      rw [hj] at hch
      rcases List.mem_append.1 hch with hc | hc
      · exact Or.inl ⟨c, by simp, hc⟩
      · rcases List.mem_cons.1 hc with hc | hc
        · exact Or.inr hc
        · rcases ih hc with ⟨t, ht, hcht⟩ | hc2
          · exact Or.inl ⟨t, by simp [ht], hcht⟩
          · exact Or.inr hc2

/-- Claim C8: for name components free of separator characters (the only
names expressible under both conventions), the walker of src/functions.py
produces the same normalized string on a Windows host as on a POSIX host,
that string is the canonical slash-joined form, and the pathlib-based walker
of synchronizer.py parses the native spelling of the path under either host
convention — and under either separator accepted on Windows — to the same
component tuple: the same logical path yields the same Relative Path value,
and snapshots of the same logical tree compare equal, regardless of the
host's native separator. -/
theorem C8_separator_normalization (comps : List (List Char))
    (hne : comps ≠ [])
    (hfree : ∀ t ∈ comps, ∀ ch ∈ t, ch ≠ '/' ∧ ch ≠ '\\') :
    normalizeSeps (nativeJoin .windows comps) = nativeJoin .posix comps ∧
    normalizeSeps (nativeJoin .posix comps) = nativeJoin .posix comps ∧
    splitPath (isSepChar .windows) (nativeJoin .windows comps) = comps ∧
    splitPath (isSepChar .windows) (nativeJoin .posix comps) = comps ∧
    splitPath (isSepChar .posix) (nativeJoin .posix comps) = comps := by
  have hbs : ∀ t ∈ comps, ∀ ch ∈ t, ch ≠ '\\' :=
    fun t ht ch hch => (hfree t ht ch hch).2
  have hwin : ∀ t ∈ comps, ∀ ch ∈ t, isSepChar .windows ch = false := by
    intro t ht ch hch
    have hf := hfree t ht ch hch
    simp [isSepChar, hf.1, hf.2]
  have hpos : ∀ t ∈ comps, ∀ ch ∈ t, isSepChar .posix ch = false := by
    intro t ht ch hch
    have hf := hfree t ht ch hch
    simp [isSepChar, hf.1]
  refine ⟨normalizeSeps_join comps hbs, ?_, ?_, ?_, ?_⟩
  · apply normalizeSeps_free
    intro ch hch
    rcases nativeJoin_chars .posix comps ch hch with ⟨t, ht, hcht⟩ | hc
    · exact (hfree t ht ch hcht).2
    · rw [hc]
      decide
  · exact splitPath_nativeJoin .windows (isSepChar .windows) comps hne hwin
      (by decide)
  · exact splitPath_nativeJoin .posix (isSepChar .windows) comps hne hwin
      (by decide)
  · exact splitPath_nativeJoin .posix (isSepChar .posix) comps hne hpos
      (by decide)

theorem C8_separator_normalization_witness :
    (([['a'], ['b']] : List (List Char)) ≠ [] ∧
      ∀ t ∈ ([['a'], ['b']] : List (List Char)), ∀ ch ∈ t,
        ch ≠ '/' ∧ ch ≠ '\\') ∧
    (normalizeSeps (nativeJoin .windows [['a'], ['b']]) =
        nativeJoin .posix [['a'], ['b']] ∧
      normalizeSeps (nativeJoin .posix [['a'], ['b']]) =
        nativeJoin .posix [['a'], ['b']] ∧
      splitPath (isSepChar .windows) (nativeJoin .windows [['a'], ['b']]) =
        [['a'], ['b']] ∧
      splitPath (isSepChar .windows) (nativeJoin .posix [['a'], ['b']]) =
        [['a'], ['b']] ∧
      splitPath (isSepChar .posix) (nativeJoin .posix [['a'], ['b']]) =
        [['a'], ['b']]) :=
  ⟨⟨by decide, by decide⟩,
    C8_separator_normalization [['a'], ['b']] (by decide) (by decide)⟩

theorem updateGo_silent (O : Oracle) (h : List Nat → Nat) (fs : FS)
    (l : List RelPath) (hsil : ∀ p ∈ l, updateEntry O h fs p = (fs, [])) :
    updateGo O h fs l = (fs, []) := by
  induction l with
  | nil => rfl
  | cons p ps ih =>
    have hp := hsil p (by simp)
    have hrest := ih fun q hq => hsil q (by simp [hq])
    simp [updateGo, hp, hrest]

/-- After a cycle with no environmental failure that logged no error record,
the replica's key set equals the source snapshot, and every remaining
file/file pair carries equal digests. -/
theorem phases_success_post (O : Oracle) (h : List Nat → Nat)
    (fs fs1 fs2 fs3 : FS) (E1 E2 E3 : List Ev) (hwf : WF fs) (hok : allOk O)
    (h1 : purgeGo O fs (compare (walk fs .src) (walk fs .rep)).only_dir2 =
      (fs1, E1))
    (h2 : createGo O fs1 (compare (walk fs .src) (walk fs .rep)).only_dir1 =
      (fs2, E2))
    (h3 : updateGo O h fs2 (compare (walk fs .src) (walk fs .rep)).common =
      (fs3, E3))
    (hnoerr : ∀ e ∈ E1 ++ E2 ++ E3, errPath e = none) (p : RelPath) :
    ((lookupFS fs3 (.rep, p)).isSome ↔ (lookupFS fs (.src, p)).isSome) ∧
    (∀ ro1 c1 ro2 c2, lookupFS fs (.src, p) = some (.file ro1 c1) →
      lookupFS fs3 (.rep, p) = some (.file ro2 c2) → h c2 = h c1) := by
  have hfst1 : (purgeGo O fs
      (compare (walk fs .src) (walk fs .rep)).only_dir2).1 = fs1 :=
    congrArg Prod.fst h1
  have hfst2 : (createGo O fs1
      (compare (walk fs .src) (walk fs .rep)).only_dir1).1 = fs2 :=
    congrArg Prod.fst h2
  have hfst3 : (updateGo O h fs2
      (compare (walk fs .src) (walk fs .rep)).common).1 = fs3 :=
    congrArg Prod.fst h3
  have hsrc3 : lookupFS fs3 (.src, p) = lookupFS fs (.src, p) := by
    rw [← hfst3, updateGo_src, ← hfst2, createGo_src, ← hfst1, purgeGo_src]
  have hout := phase_outcome O h fs fs1 fs2 fs3 E1 E2 E3 hwf h1 h2 h3 p
  constructor
  · constructor
    · -- the replica holds nothing outside the source snapshot
      intro hrep3
      by_contra hsrc
      have hsrcnone : lookupFS fs (.src, p) = none := by
        cases hl : lookupFS fs (.src, p) with
        | none => rfl
        | some e =>
          rw [hl] at hsrc
          simp at hsrc
      have hnotin1 : p ∉ walk fs Side.src := by
        intro hin
        rw [walk_mem, hsrcnone] at hin
        simp at hin
      have hrep1 : lookupFS fs1 (.rep, p) = none := by
        by_cases hp2 : p ∈ walk fs Side.rep
        · have hpo2 : p ∈ (compare (walk fs .src)
              (walk fs .rep)).only_dir2 :=
            (mem_only_dir2 _ _ p).2 ⟨hp2, hnotin1⟩
          rw [← hfst1]
          exact purgeGo_rep_del O fs _ p hok hpo2
        · have hrnone : lookupFS fs (.rep, p) = none := by
            cases hl : lookupFS fs (.rep, p) with
            | none => rfl
            | some e =>
              exact absurd ((walk_mem fs .rep p).2 (by simp [hl])) hp2
          rw [← hfst1]
          exact purgeGo_rep_none O fs _ p hrnone
      have hrep2 : lookupFS fs2 (.rep, p) = none := by
        by_cases hch : lookupFS fs2 (.rep, p) = lookupFS fs1 (.rep, p)
        · rw [hch]
          exact hrep1
        · exfalso
          rw [← hfst2] at hch
          rcases createGo_change O fs1 _ p hch with ⟨f, hf, hc⟩
          have hfs1mem : f ∈ walk fs Side.src :=
            ((mem_only_dir1 _ _ f).1 hf).1
          obtain ⟨ef, hef⟩ :=
            Option.isSome_iff_exists.1 ((walk_mem fs .src f).1 hfs1mem)
          rcases hc with hc | ⟨hnil, hpre⟩
          · exact hnotin1 (hc ▸ hfs1mem)
          · by_cases hpf : p = f
            · exact hnotin1 (hpf ▸ hfs1mem)
            · have hdir := hwf.anc hef hpre hnil hpf
              rw [hdir] at hsrcnone
              cases hsrcnone
      have hnotc : p ∉ (compare (walk fs .src) (walk fs .rep)).common :=
        fun hin => hnotin1 ((mem_common _ _ p).1 hin).1
      have hrep3' : lookupFS fs3 (.rep, p) = none := by
        rw [← hfst3, updateGo_rep_keep O h fs2 _ p hnotc]
        exact hrep2
      rw [hrep3'] at hrep3
      cases hrep3
    · -- every source path reaches the replica
      intro hsrc
      have hp : p ∈ walk fs Side.src := (walk_mem fs .src p).2 hsrc
      rcases hout hp with ⟨e, he, hep⟩ | ⟨hclash, hpres⟩ | hmatch
      · rw [hnoerr e he] at hep
        cases hep
      · rw [hpres]
        cases hl : lookupFS fs (.rep, p) with
        | some e2 => simp
        | none =>
          exfalso
          cases hl0 : lookupFS fs (.src, p) with
          | none => simp [typeClash, hl0, hl] at hclash
          | some e0 => cases e0 <;> simp [typeClash, hl0, hl] at hclash
      · obtain ⟨e0, he0⟩ := Option.isSome_iff_exists.1 hsrc
        rw [he0] at hsrc3
        cases e0 with
        | dir =>
          simp only [matchesAt, hsrc3] at hmatch
          simp [hmatch]
        | file ro c =>
          simp only [matchesAt, hsrc3] at hmatch
          cases hl : lookupFS fs3 (.rep, p) with
          | none =>
            rw [hl] at hmatch
            cases hmatch
          | some e2 => simp
  · intro ro1 c1 ro2 c2 hsf hrf
    have hp : p ∈ walk fs Side.src :=
      (walk_mem fs .src p).2 (by simp [hsf])
    rcases hout hp with ⟨e, he, hep⟩ | ⟨hclash, hpres⟩ | hmatch
    · rw [hnoerr e he] at hep
      cases hep
    · exfalso
      cases hl : lookupFS fs (.rep, p) with
      | none => simp [typeClash, hsf, hl] at hclash
      | some e2 =>
        cases e2 with
        | file ro3 c3 => simp [typeClash, hsf, hl] at hclash
        | dir =>
          rw [hpres, hl] at hrf
          cases hrf
    · rw [hsf] at hsrc3
      simp only [matchesAt, hsrc3, hrf] at hmatch
      exact hmatch

/-- Claim C4: running a second cycle immediately after a successful cycle
(no environmental failure, no error logged) with no external change to
either tree performs zero purge, create, or update actions: the second
classification has empty only_dir1 and only_dir2 sets, every common file
pair's digests match, the second cycle's log is empty (so no delete, copy,
or overwrite occurs), and the trees are left untouched. -/
theorem C4_second_cycle_idempotent (O1 O2 : Oracle) (h : List Nat → Nat)
    (fs : FS) (hwf : WF fs) (hok1 : allOk O1) (hok2 : allOk O2)
    (hnoerr : ∀ e ∈ (runCycle O1 h fs).2.2, errPath e = none) :
    (runCycle O2 h (runCycle O1 h fs).1).2.1.only_dir1 = [] ∧
    (runCycle O2 h (runCycle O1 h fs).1).2.1.only_dir2 = [] ∧
    (runCycle O2 h (runCycle O1 h fs).1).2.2 = [] ∧
    (runCycle O2 h (runCycle O1 h fs).1).1 = (runCycle O1 h fs).1 ∧
    (∀ p ro1 c1 ro2 c2,
      lookupFS (runCycle O1 h fs).1 (.src, p) = some (.file ro1 c1) →
      lookupFS (runCycle O1 h fs).1 (.rep, p) = some (.file ro2 c2) →
      h c1 = h c2) := by
  have hpost : ∀ p : RelPath,
      ((lookupFS (runCycle O1 h fs).1 (.rep, p)).isSome ↔
        (lookupFS fs (.src, p)).isSome) ∧
      (∀ ro1 c1 ro2 c2, lookupFS fs (.src, p) = some (.file ro1 c1) →
        lookupFS (runCycle O1 h fs).1 (.rep, p) = some (.file ro2 c2) →
        h c2 = h c1) :=
    fun p => phases_success_post O1 h fs _ _ _ _ _ _ hwf hok1 rfl rfl rfl
      hnoerr p
  have hsrcA : ∀ p : RelPath,
      lookupFS (runCycle O1 h fs).1 (.src, p) = lookupFS fs (.src, p) :=
    fun p => runCycle_src O1 h fs p
  have honly1 : (compare (walk (runCycle O1 h fs).1 .src)
      (walk (runCycle O1 h fs).1 .rep)).only_dir1 = [] := by
    apply List.filter_eq_nil_iff.2
    intro p hp
    have hm1 := (walk_mem (runCycle O1 h fs).1 .src p).1 hp
    rw [hsrcA p] at hm1
    have hm2 := (hpost p).1.2 hm1
    have hm3 := (walk_mem (runCycle O1 h fs).1 .rep p).2 hm2
    simp [hm3]
  have honly2 : (compare (walk (runCycle O1 h fs).1 .src)
      (walk (runCycle O1 h fs).1 .rep)).only_dir2 = [] := by
    apply List.filter_eq_nil_iff.2
    intro p hp
    have hm1 := (walk_mem (runCycle O1 h fs).1 .rep p).1 hp
    have hm2 := (hpost p).1.1 hm1
    rw [← hsrcA p] at hm2
    have hm3 := (walk_mem (runCycle O1 h fs).1 .src p).2 hm2
    simp [hm3]
  have hsil : ∀ p ∈ (compare (walk (runCycle O1 h fs).1 .src)
        (walk (runCycle O1 h fs).1 .rep)).common,
      updateEntry O2 h (runCycle O1 h fs).1 p = ((runCycle O1 h fs).1, []) := by
    intro p hp
    have hp1 : p ∈ walk (runCycle O1 h fs).1 .src :=
      ((mem_common _ _ p).1 hp).1
    have hm1 := (walk_mem (runCycle O1 h fs).1 .src p).1 hp1
    obtain ⟨e0, he0⟩ := Option.isSome_iff_exists.1 hm1
    cases e0 with
    | dir => simp [updateEntry, he0]
    | file ro1 c1 =>
      have hm2 : (lookupFS (runCycle O1 h fs).1 (.rep, p)).isSome := by
        apply (hpost p).1.2
        rw [← hsrcA p]
        simp [he0]
      obtain ⟨e2, he2⟩ := Option.isSome_iff_exists.1 hm2
      cases e2 with
      | dir => simp [updateEntry, he0, he2]
      | file ro2 c2 =>
        have hdig : h c2 = h c1 := by
          apply (hpost p).2 ro1 c1 ro2 c2 ?_ he2
          rw [← hsrcA p]
          exact he0
        have hsha1 : calculate_sha256 O2 h (runCycle O1 h fs).1 .src p =
            some (h c1) := by
          simp [calculate_sha256, (hok2 .src p).2.2.2.2.2, he0]
        have hsha2 : calculate_sha256 O2 h (runCycle O1 h fs).1 .rep p =
            some (h c2) := by
          simp [calculate_sha256, (hok2 .rep p).2.2.2.2.2, he2]
        simp [updateEntry, he0, he2, hsha1, hsha2, hdig]
  have hupd : updateGo O2 h (runCycle O1 h fs).1
      (compare (walk (runCycle O1 h fs).1 .src)
        (walk (runCycle O1 h fs).1 .rep)).common =
      ((runCycle O1 h fs).1, []) :=
    updateGo_silent O2 h (runCycle O1 h fs).1 _ hsil
  have hcyc2 : runCycle O2 h (runCycle O1 h fs).1 =
      ((runCycle O1 h fs).1,
        compare (walk (runCycle O1 h fs).1 .src)
          (walk (runCycle O1 h fs).1 .rep), []) := by
    rw [runCycle_eq, honly1, honly2]
    simp only [purgeGo, createGo]
    rw [hupd]
    simp
  refine ⟨?_, ?_, ?_, ?_, ?_⟩
  · rw [hcyc2]
    exact honly1
  · rw [hcyc2]
    exact honly2
  · rw [hcyc2]
  · rw [hcyc2]
  · intro p ro1 c1 ro2 c2 hsf hrf
    have := (hpost p).2 ro1 c1 ro2 c2 (by rw [← hsrcA p]; exact hsf) hrf
    exact this.symm

theorem C4_second_cycle_idempotent_witness :
    (WF [((Side.src, ["a"]), Entry.file false [1]),
        ((Side.rep, ["b"]), Entry.file false [2])] ∧
      allOk okOracle ∧
      ∀ e ∈ (runCycle okOracle List.length
          [((Side.src, ["a"]), Entry.file false [1]),
            ((Side.rep, ["b"]), Entry.file false [2])]).2.2,
        errPath e = none) ∧
    ((runCycle okOracle List.length (runCycle okOracle List.length
        [((Side.src, ["a"]), Entry.file false [1]),
          ((Side.rep, ["b"]), Entry.file false [2])]).1).2.1.only_dir1 =
        [] ∧
      (runCycle okOracle List.length (runCycle okOracle List.length
        [((Side.src, ["a"]), Entry.file false [1]),
          ((Side.rep, ["b"]), Entry.file false [2])]).1).2.1.only_dir2 =
        [] ∧
      (runCycle okOracle List.length (runCycle okOracle List.length
        [((Side.src, ["a"]), Entry.file false [1]),
          ((Side.rep, ["b"]), Entry.file false [2])]).1).2.2 = [] ∧
      (runCycle okOracle List.length (runCycle okOracle List.length
        [((Side.src, ["a"]), Entry.file false [1]),
          ((Side.rep, ["b"]), Entry.file false [2])]).1).1 =
        (runCycle okOracle List.length
          [((Side.src, ["a"]), Entry.file false [1]),
            ((Side.rep, ["b"]), Entry.file false [2])]).1 ∧
      (∀ p ro1 c1 ro2 c2,
        lookupFS (runCycle okOracle List.length
            [((Side.src, ["a"]), Entry.file false [1]),
              ((Side.rep, ["b"]), Entry.file false [2])]).1
          (.src, p) = some (.file ro1 c1) →
        lookupFS (runCycle okOracle List.length
            [((Side.src, ["a"]), Entry.file false [1]),
              ((Side.rep, ["b"]), Entry.file false [2])]).1
          (.rep, p) = some (.file ro2 c2) →
        List.length c1 = List.length c2)) :=
  ⟨⟨by decide, okOracle_allOk, by decide⟩,
    C4_second_cycle_idempotent okOracle okOracle List.length
      [((Side.src, ["a"]), Entry.file false [1]),
        ((Side.rep, ["b"]), Entry.file false [2])]
      (by decide) okOracle_allOk okOracle_allOk (by decide)⟩

end Sync